import Mathlib

/-!
Verification model of the reconciliation engine of `src/onewaySync.ts`
(gcal-oneway-sync).  The remote Google Calendar API is modelled as pure
state: the target calendar is the list of its non-deleted events, and the
four remote writes (insert / patch / delete / list) act on that list.
Failure injection for the write calls is supplied by an `Env` of oracles,
mirroring the places where the code can observe a thrown error.  Machine
timestamps (`created` / `updated`, ISO strings parsed with `new Date`)
are modelled as natural-number milliseconds; target event ids are
modelled as naturals handed out by a counter, standing for the opaque
server-assigned id strings.
-/

/-- Start or end bound of an event: `{ dateTime?, date? }`. -/
structure EvTime where
  dateTime : Option String
  date : Option String
deriving DecidableEq, Repr

/-- An event record, covering the fields `onewaySync.ts` reads or writes.
`attendeesCount`, `attachmentsCount`, `reminderOverridesCount` stand for
`attendees?.length`, `attachments?.length`, `reminders?.overrides?.length`
(the code only ever uses the lengths).  `origin` is
`extendedProperties?.private?.origin`.  `finish` renders the JSON field
`end`, which is a reserved word here. -/
structure Event where
  id : Nat
  summary : Option String
  description : Option String
  location : Option String
  start : Option EvTime
  finish : Option EvTime
  status : Option String
  iCalUID : Option String
  originalStartTime : Option EvTime
  created : Option Nat
  updated : Option Nat
  attendeesCount : Nat
  attachmentsCount : Nat
  reminderOverridesCount : Nat
  visibility : Option String
  recurrence : Option (List String)
  origin : Option String
deriving DecidableEq, Repr

/-- JavaScript `String.prototype.trim`, written on the character list so
that it evaluates inside the kernel. -/
def jsTrim (s : String) : String :=
  ⟨((s.data.dropWhile Char.isWhitespace).reverse.dropWhile Char.isWhitespace).reverse⟩

/-- JavaScript `String.prototype.toLowerCase` (character-wise). -/
def jsToLower (s : String) : String :=
  ⟨s.data.map Char.toLower⟩

/-- Bool test that `p` is a prefix of `l`. -/
def isPrefixB : List Char → List Char → Bool
  | [], _ => true
  | _ :: _, [] => false
  | a :: as, b :: bs => a == b && isPrefixB as bs

/-- Bool test that `p` occurs inside `l`; used for
`message?.includes(...)`. -/
def isInfixB (p : List Char) : List Char → Bool
  | [] => isPrefixB p []
  | l@(_ :: rest) => isPrefixB p l || isInfixB p rest

/-- JavaScript `String.prototype.includes`. -/
def strIncludes (s pat : String) : Bool :=
  isInfixB pat.data s.data

/-- Bool test that `p` is a suffix of `l`. -/
def isSuffixB (p l : List Char) : Bool :=
  l.reverse.take p.length == p.reverse

/-- `split(sep)[0]`: the characters before the first `:`; used by
`findByTitleTime` on the title+time key. -/
def firstColonSeg (s : String) : String :=
  ⟨s.data.takeWhile (fun c => !(c == ':'))⟩

/-- `const isoOrDate = (dt?, d?) => dt ?? d ?? ""` (line 126). -/
def isoOrDate (dt d : Option String) : String :=
  dt.getD (d.getD "")

/-- `isoOrDate(t?.dateTime, t?.date)` for an optional time bound: optional
chaining turns an absent bound into two absent arguments. -/
def evTimeStr (t : Option EvTime) : String :=
  match t with
  | some u => isoOrDate u.dateTime u.date
  | none => ""

/-- `normalizeICalUID` (lines 135-137): strip a final `@google.com`.  The
JS guard returns a falsy `iCalUID` unchanged; the empty string has no
such suffix, so the behaviour coincides. -/
def normalizeICalUID (s : String) : String :=
  let suf := "@google.com".data
  if isSuffixB suf s.data then ⟨s.data.take (s.data.length - suf.length)⟩ else s

/-- `buildOriginKey` (lines 140-145): canonical source id, normalized
`iCalUID ?? id`, plus the original start of a recurrence exception when
present.  The numeric model id stands in for the id string. -/
def buildOriginKey (srcCanonicalId : String) (ev : Event) : String :=
  let normalizedUID := normalizeICalUID (ev.iCalUID.getD (Nat.repr ev.id))
  let base := srcCanonicalId ++ ":" ++ normalizedUID
  let orig := evTimeStr ev.originalStartTime
  if orig ≠ "" then base ++ ":" ++ orig else base

/-- `buildTitleTimeKey` (lines 148-153): lower-cased trimmed title with
the start and end bounds. -/
def buildTitleTimeKey (ev : Event) : String :=
  let title := jsToLower (jsTrim (ev.summary.getD ""))
  let startTime := evTimeStr ev.start
  let endTime := evTimeStr ev.finish
  title ++ ":" ++ startTime ++ ":" ++ endTime

/-- `new Date(ev.updated || ev.created || 0).getTime()` (lines 191-192),
with timestamps already carried as milliseconds. -/
def eventTimeMs (ev : Event) : Nat :=
  ev.updated.getD (ev.created.getD 0)

/-- `getEventDetailScore` (lines 205-213).  The two length additions are
gated on truthiness in JS, which is the same as adding the length
unconditionally. -/
def getEventDetailScore (ev : Event) : Nat :=
  (match ev.description with
   | some d => if jsTrim d ≠ "" then 2 else 0
   | none => 0)
  + (match ev.location with
     | some l => if jsTrim l ≠ "" then 1 else 0
     | none => 0)
  + ev.attendeesCount
  + ev.attachmentsCount
  + (if ev.reminderOverridesCount ≠ 0 then 1 else 0)

/-- `isEventNewer` (lines 190-202): strictly later timestamp wins; a tie
falls back to the strictly higher detail score. -/
def isEventNewer (a b : Event) : Bool :=
  let timeA := eventTimeMs a
  let timeB := eventTimeMs b
  if timeA ≠ timeB then decide (timeB < timeA)
  else decide (getEventDetailScore b < getEventDetailScore a)

/-- `new Date(a.created!).getTime()` used by the `findByOrigin` sort. -/
def createdMs (ev : Event) : Nat :=
  ev.created.getD 0

/-- First element of the list after the ascending stable sort on
`created` (lines 228-230): the earliest-created item, the earlier listed
one on ties. -/
def minByCreated (x : Event) (l : List Event) : Event :=
  l.foldl (fun best e => if createdMs e < createdMs best then e else best) x

/-- `findByOrigin` (lines 215-234): list the target events whose private
`origin` property equals `key` (the calendar list holds only non-deleted
events, matching `showDeleted: false`; `maxResults: 10` is not a bound
the model needs), and prefer the oldest when several match. -/
def findByOrigin (cal : List Event) (key : String) : Option Event :=
  match cal.filter (fun e => e.origin == some key) with
  | [] => none
  | x :: xs => some (minByCreated x xs)

/-- `findByTitleTime` (lines 156-187).  The remote query narrows by a
one-day window and a free-text `q`, both supersets of the final exact
client-side filter on the full title+time key, so the model filters the
calendar directly.  The guard is the JS
`if (!title || !ev.start) return []`. -/
def findByTitleTime (cal : List Event) (ev : Event) : List Event :=
  let titleTimeKey := buildTitleTimeKey ev
  let title := firstColonSeg titleTimeKey
  if title == "" || ev.start.isNone then []
  else cal.filter (fun item => buildTitleTimeKey item == titleTimeKey)

/-- The filter of lines 353-356: keep the title+time matches that lack an
origin property or carry a different one.  (A falsy empty-string origin
also passes the JS test, and also differs from `key`, which always
contains a colon.) -/
def validDuplicates (cal : List Event) (ev : Event) (key : String) : List Event :=
  (findByTitleTime cal ev).filter (fun dup => !(dup.origin == some key))

/-- The request body built by `mirrorBodyFrom` (lines 269-282).  Fields
whose value is `undefined` are dropped from the serialized JSON, so an
absent optional stays absent; `attendees: undefined` likewise serializes
to nothing and is not a field here. -/
structure MirrorBody where
  summary : String
  description : Option String
  location : Option String
  start : Option EvTime
  finish : Option EvTime
  visibility : Option String
  recurrence : Option (List String)
  origin : String
deriving DecidableEq, Repr

/-- `mirrorBodyFrom` (lines 269-282). -/
def mirrorBodyFrom (ev : Event) (key : String) : MirrorBody :=
  { summary := ev.summary.getD "(busy)"
    description := ev.description
    location := ev.location
    start := ev.start
    finish := ev.finish
    visibility := ev.visibility
    recurrence := ev.recurrence
    origin := key }

/-- `{ ...ev, ...mirrorBodyFrom(ev, key) }` (line 360).  Every key listed
in the body literal overwrites the spread event, including the explicit
`attendees: undefined`; the remaining body fields copy the matching event
fields, so only the summary default, the attendee reset and the origin
tag differ from `ev`. -/
def currentEventFrom (ev : Event) (key : String) : Event :=
  { ev with
    summary := some (ev.summary.getD "(busy)")
    attendeesCount := 0
    origin := some key }

/-- Server semantics of `events.patch` with a `mirrorBodyFrom` body: a
field present in the JSON overwrites, an absent field is untouched
(`attendees: undefined` serializes to nothing, so attendees survive). -/
def applyPatch (e : Event) (b : MirrorBody) : Event :=
  { e with
    summary := some b.summary
    description := b.description <|> e.description
    location := b.location <|> e.location
    start := b.start <|> e.start
    finish := b.finish <|> e.finish
    visibility := b.visibility <|> e.visibility
    recurrence := b.recurrence <|> e.recurrence
    origin := some b.origin }

/-- Server semantics of `events.insert`: a new event with the body fields;
`created` / `updated` / `iCalUID` / `status` are server-assigned values
the model leaves unknown. -/
def insertFromBody (newId : Nat) (b : MirrorBody) : Event :=
  { id := newId
    summary := some b.summary
    description := b.description
    location := b.location
    start := b.start
    finish := b.finish
    status := none
    iCalUID := none
    originalStartTime := none
    created := none
    updated := none
    attendeesCount := 0
    attachmentsCount := 0
    reminderOverridesCount := 0
    visibility := b.visibility
    recurrence := b.recurrence
    origin := some b.origin }

/-- Server semantics of `events.delete`: drop the event with that id. -/
def removeId (i : Nat) (cal : List Event) : List Event :=
  cal.filter (fun e => !(e.id == i))

/-- State threaded through one run: the target calendar, the id counter
for inserts, and the operation counts observable in the logs. -/
structure SyncSt where
  cal : List Event
  nextId : Nat
  inserts : Nat
  deletes : Nat
  patches : Nat
deriving DecidableEq, Repr

/-- Failure-injection oracles: which write calls throw.  `insertFail`
yields the message of the thrown error for a given origin key. -/
structure Env where
  insertFail : String → Option String
  deleteFail : Nat → Bool
  patchFail : Nat → Bool

/-- A thrown error: `e?.code || e?.response?.status` when it carries an
HTTP status. -/
structure Err where
  code : Option Nat
  msg : String
deriving DecidableEq, Repr

/-- Patch the event with id `i` and count the call. -/
def patchAt (st : SyncSt) (i : Nat) (b : MirrorBody) : SyncSt :=
  { st with
    cal := st.cal.map (fun e => if e.id == i then applyPatch e b else e)
    patches := st.patches + 1 }

/-- Insert a fresh event built from `b` and count the call. -/
def doInsert (st : SyncSt) (b : MirrorBody) : SyncSt :=
  { st with
    cal := st.cal ++ [insertFromBody st.nextId b]
    nextId := st.nextId + 1
    inserts := st.inserts + 1 }

/-- `findByICalAndBackfill` (lines 236-267): look the stable `iCalUID`
up in the target, prefer the exact recurrence-instance match, and patch
the origin tag onto the winner (a patch of `extendedProperties` only;
its failure is caught and logged).  Returns the winner and the possibly
backfilled calendar. -/
def findByICalAndBackfill (env : Env) (cal : List Event) (ev : Event) (key : String) :
    Option Event × List Event :=
  match ev.iCalUID with
  | none => (none, cal)
  | some iuid =>
    if iuid == "" then (none, cal)
    else
      match cal.filter (fun e => e.iCalUID == some iuid) with
      | [] => (none, cal)
      | x :: xs =>
        let items := x :: xs
        let orig := evTimeStr ev.originalStartTime
        let winner :=
          if orig ≠ "" then
            (items.find? (fun c => evTimeStr c.originalStartTime == orig)).getD x
          else x
        let cal2 :=
          if env.patchFail winner.id then cal
          else cal.map (fun e => if e.id == winner.id then { e with origin := some key } else e)
        (winner, cal2)

/-- The duplicate loop of lines 364-386, folded over the valid
duplicates.  `adopted` is `eventToUpdate` (in JS it starts as `null` and,
once set, `bestEvent` stays that same object, so the best event is
`adopted.getD currentEvent`).  A duplicate that is not newer than the
best event and is not the adopted one is deleted; a failed delete is
caught and logged (lines 381-383). -/
def dupLoop (env : Env) (currentEvent : Event) :
    List Event → Option Event → SyncSt → Option Event × SyncSt
  | [], adopted, st => (adopted, st)
  | dup :: rest, adopted, st =>
    let best := adopted.getD currentEvent
    if isEventNewer dup best then
      match adopted with
      | none => dupLoop env currentEvent rest (some dup) st
      | some _ => dupLoop env currentEvent rest adopted st
    else
      match adopted with
      | some u =>
        if u.id == dup.id then dupLoop env currentEvent rest adopted st
        else if env.deleteFail dup.id then dupLoop env currentEvent rest adopted st
        else
          dupLoop env currentEvent rest adopted
            { st with cal := removeId dup.id st.cal, deletes := st.deletes + 1 }
      | none =>
        if env.deleteFail dup.id then dupLoop env currentEvent rest none st
        else
          dupLoop env currentEvent rest none
            { st with cal := removeId dup.id st.cal, deletes := st.deletes + 1 }

/-- Lines 345-394: the title+time duplicate scan.  Running the loop over
an empty valid list is the same as skipping the two length guards, and
`eventToUpdate !== currentEvent` always holds for a list element, so the
adopted duplicate (if any) becomes the mirror. -/
def reconcileDuplicates (env : Env) (st : SyncSt) (ev : Event) (key : String) :
    Option Event × SyncSt :=
  dupLoop env (currentEventFrom ev key) (validDuplicates st.cal ev key) none st

/-- One iteration of the per-event loop of `syncOneSource`
(lines 314-457).  The cancelled branch models line 325: the JS
disjunction `findByOrigin(...) || findByICalAndBackfill(...)` evaluates
its first operand to a promise object, which is always truthy, so only
the origin lookup is ever consulted there.  The delete failure is caught
(lines 334-336).  For a live event the scan of lines 345-394 runs first;
the adopted duplicate, or else the mirror of the pre-create origin
re-check (line 400), is patched with the mirror body, both patches
outside any try/catch; otherwise the event is inserted, and an insert
error goes through the recovery of lines 409-437: re-resolve by origin
then by stable id (patches there are guarded), else swallow the error
only when its message signals duplication. -/
def processEvent (env : Env) (srcId : String) (st : SyncSt) (ev : Event) :
    Except Err SyncSt :=
  let key := buildOriginKey srcId ev
  if ev.status == some "cancelled" then
    match findByOrigin st.cal key with
    | some mirror =>
      if env.deleteFail mirror.id then .ok st
      else .ok { st with cal := removeId mirror.id st.cal, deletes := st.deletes + 1 }
    | none => .ok st
  else
    let body := mirrorBodyFrom ev key
    match reconcileDuplicates env st ev key with
    | (some u, st1) =>
      if env.patchFail u.id then .error { code := none, msg := "patch failed" }
      else .ok (patchAt st1 u.id body)
    | (none, st1) =>
      match findByOrigin st1.cal key with
      | some m =>
        if env.patchFail m.id then .error { code := none, msg := "patch failed" }
        else .ok (patchAt st1 m.id body)
      | none =>
        match env.insertFail key with
        | none => .ok (doInsert st1 body)
        | some msg =>
          match findByOrigin st1.cal key with
          | some m2 =>
            if env.patchFail m2.id then .ok st1
            else .ok (patchAt st1 m2.id body)
          | none =>
            match findByICalAndBackfill env st1.cal ev key with
            | (some w, cal2) =>
              let st2 := { st1 with cal := cal2 }
              if env.patchFail w.id then .ok st2
              else .ok (patchAt st2 w.id body)
            | (none, _) =>
              if strIncludes msg "duplicate" || strIncludes msg "already exists" then .ok st1
              else .error { code := none, msg := msg }

/-- The per-page `for` loop over the fetched items (lines 314-458); an
uncaught per-event error aborts the remaining items. -/
def processItems (env : Env) (srcId : String) : SyncSt → List Event → Except Err SyncSt
  | st, [] => .ok st
  | st, ev :: rest =>
    match processEvent env srcId st ev with
    | .ok st2 => processItems env srcId st2 rest
    | .error e => .error e

/-- One page returned by `sourceApi.events.list`. -/
structure FetchOut where
  items : List Event
  nextPageToken : Option String
  nextSyncToken : Option String

/-- The remote source calendar as an oracle: a fetch takes the
`syncToken` parameter (`none` meaning the bounded two-week window of
lines 301-304) and the page token, and either yields a page or throws an
HTTP status code. -/
def SourceFetch : Type :=
  Option String → Option String → Except Nat FetchOut

/-- Run-wide state: the durable per-source sync tokens (`state.json`,
saved synchronously whenever touched) and the target-calendar state. -/
structure RunSt where
  tokens : String → Option String
  sync : SyncSt

/-- Write one source entry of the durable token map. -/
def setToken (tokens : String → Option String) (srcId : String) (v : Option String) :
    String → Option String :=
  fun s => if s == srcId then v else tokens s

/-- The `do ... while (pageToken)` loop of `syncOneSource`
(lines 306-479), with explicit fuel for the kernel.  `tokParam` is the
`syncToken` member of `baseParams` (`none` = window mode).  The single
catch handles a 410 thrown anywhere in the body: it deletes the stored
token, saves state, strips the token from the params, resets the page
token and continues; every other error propagates.  A page is processed,
then its `nextSyncToken`, when present, is persisted immediately. -/
def syncLoop (env : Env) (src : SourceFetch) (srcId : String) :
    Nat → Option String → Option String → RunSt → Except Err RunSt
  | 0, _, _, _ => .error { code := none, msg := "out of fuel" }
  | fuel + 1, tokParam, pageToken, rs =>
    match src tokParam pageToken with
    | .error c =>
      if c == 410 then
        syncLoop env src srcId fuel none none
          { rs with tokens := setToken rs.tokens srcId none }
      else .error { code := some c, msg := "http error" }
    | .ok data =>
      match processItems env srcId rs.sync data.items with
      | .error e =>
        if e.code == some 410 then
          syncLoop env src srcId fuel none none
            { rs with tokens := setToken rs.tokens srcId none }
        else .error e
      | .ok sync2 =>
        let tokens2 :=
          match data.nextSyncToken with
          | some t => setToken rs.tokens srcId (some t)
          | none => rs.tokens
        let rs2 : RunSt := { tokens := tokens2, sync := sync2 }
        match data.nextPageToken with
        | some pt => syncLoop env src srcId fuel tokParam (some pt) rs2
        | none => .ok rs2

/-- `syncOneSource` (lines 284-480): pick the stored token for the
source to decide between incremental and window mode, then run the page
loop. -/
def syncOneSource (env : Env) (src : SourceFetch) (srcId : String) (fuel : Nat)
    (rs : RunSt) : Except Err RunSt :=
  syncLoop env src srcId fuel (rs.tokens srcId) none rs

/-- The per-source loop of `main` (lines 524-526): the canonical source
ids each carry their fetch oracle; there is no per-source catch, so a
failing source aborts the remaining ones. -/
def runSources (env : Env) (fuel : Nat) :
    List (String × SourceFetch) → RunSt → Except Err RunSt
  | [], rs => .ok rs
  | (srcId, src) :: rest, rs =>
    match syncOneSource env src srcId fuel rs with
    | .ok rs2 => runSources env fuel rest rs2
    | .error e => .error e

/-- `acquireLock` (lines 68-97): create-if-absent of the lock file
holding the caller pid; on `EEXIST`, probe the recorded pid with
`process.kill(pid, 0)` — alive means give up with `false`, dead means
unlink the stale file and retry.  The recursion carries fuel; the lock
file content is modelled as the recorded pid. -/
def acquireLock (alive : Nat → Bool) (selfPid : Nat) :
    Nat → Option Nat → Option (Bool × Option Nat)
  | 0, _ => none
  | _ + 1, none => some (true, some selfPid)
  | fuel + 1, some pid =>
    if alive pid then some (false, some pid)
    else acquireLock alive selfPid fuel none

/-- Observable outcome of `main` (lines 483-532). -/
inductive MainOut where
  | noSources
  | lockBusy
  | stuck
  | ran (r : Except Err RunSt)

/-- `main` (lines 483-532): bail out when no sources are configured;
acquire the lock and return silently when it is busy; otherwise sync
every source under a `try/finally` that always removes the lock file.
The result pairs the outcome with the final lock file. -/
def mainRun (env : Env) (alive : Nat → Bool) (selfPid : Nat) (lockFuel fuel : Nat)
    (lock : Option Nat) (sources : List (String × SourceFetch)) (rs : RunSt) :
    MainOut × Option Nat :=
  if sources.isEmpty then (.noSources, lock)
  else
    match acquireLock alive selfPid lockFuel lock with
    | none => (.stuck, lock)
    | some (false, lock2) => (.lockBusy, lock2)
    | some (true, _) => (.ran (runSources env fuel sources rs), none)

/-- A blank event record, the base for concrete calendars in examples. -/
def blankEvent (i : Nat) : Event :=
  { id := i, summary := none, description := none, location := none, start := none,
    finish := none, status := none, iCalUID := none, originalStartTime := none,
    created := none, updated := none, attendeesCount := 0, attachmentsCount := 0,
    reminderOverridesCount := 0, visibility := none, recurrence := none, origin := none }

/-- The oracle set in which every remote write succeeds. -/
def envNoFail : Env :=
  ⟨fun _ => none, fun _ => false, fun _ => false⟩

/-- No injected write failure of any kind. -/
def FailureFree (env : Env) : Prop :=
  (∀ k, env.insertFail k = none) ∧ (∀ i, env.deleteFail i = false) ∧
    (∀ i, env.patchFail i = false)

theorem envNoFail_ff : FailureFree envNoFail :=
  ⟨fun _ => rfl, fun _ => rfl, fun _ => rfl⟩

/-- Number of non-deleted target events whose origin tag is `key`. -/
def tagCount (key : String) (cal : List Event) : Nat :=
  (cal.filter (fun e => e.origin == some key)).length

theorem mem_removeId {i : Nat} {cal : List Event} {e : Event} :
    e ∈ removeId i cal ↔ e ∈ cal ∧ ¬e.id = i := by
  simp [removeId, List.mem_filter]

theorem removeId_sublist (i : Nat) (cal : List Event) : (removeId i cal).Sublist cal :=
  List.filter_sublist cal

theorem tagCount_le_length (key : String) (cal : List Event) :
    tagCount key cal ≤ cal.length :=
  List.length_filter_le _ cal

theorem tagCount_sublist {cal cal2 : List Event} (h : cal2.Sublist cal) (key : String) :
    tagCount key cal2 ≤ tagCount key cal :=
  (h.filter _).length_le

theorem tagCount_append_one (key : String) (cal : List Event) (e : Event) :
    tagCount key (cal ++ [e]) =
      tagCount key cal + (if e.origin = some key then 1 else 0) := by
  by_cases h : e.origin = some key <;> simp [tagCount, List.filter_append, h]

theorem tagCount_eq_zero_iff {key : String} {cal : List Event} :
    tagCount key cal = 0 ↔ ∀ e ∈ cal, ¬e.origin = some key := by
  simp [tagCount, List.length_eq_zero, List.filter_eq_nil_iff]

theorem minByCreated_mem : ∀ (l : List Event) (x : Event),
    minByCreated x l = x ∨ minByCreated x l ∈ l := by
  intro l
  induction l with
  | nil => intro x; left; rfl
  | cons e rest ih =>
    intro x
    have hstep : minByCreated x (e :: rest) =
        minByCreated (if createdMs e < createdMs x then e else x) rest := rfl
    rcases ih (if createdMs e < createdMs x then e else x) with h | h
    · rw [hstep, h]
      split
      · right; exact List.mem_cons_self _ _
      · left; rfl
    · right
      rw [hstep]
      exact List.mem_cons_of_mem _ h

theorem findByOrigin_eq_none {cal : List Event} {key : String} :
    findByOrigin cal key = none ↔ ∀ e ∈ cal, ¬e.origin = some key := by
  constructor
  · intro hn e he ho
    have hm : e ∈ cal.filter (fun e => e.origin == some key) :=
      List.mem_filter.mpr ⟨he, by simp [ho]⟩
    unfold findByOrigin at hn
    rcases hf : cal.filter (fun e => e.origin == some key) with _ | ⟨x, xs⟩
    · rw [hf] at hm; exact absurd hm (List.not_mem_nil e)
    · rw [hf] at hn; exact Option.noConfusion hn
  · intro h
    have hf : cal.filter (fun e => e.origin == some key) = [] :=
      List.filter_eq_nil_iff.mpr (by intro e he; simp [h e he])
    unfold findByOrigin
    rw [hf]

theorem findByOrigin_mem {cal : List Event} {key : String} {m : Event}
    (h : findByOrigin cal key = some m) : m ∈ cal ∧ m.origin = some key := by
  unfold findByOrigin at h
  rcases hf : cal.filter (fun e => e.origin == some key) with _ | ⟨x, xs⟩
  · rw [hf] at h; exact Option.noConfusion h
  · rw [hf] at h
    have hm : m = minByCreated x xs := by
      injection h with h2; exact h2.symm
    have : m ∈ x :: xs := by
      rw [hm]; rcases minByCreated_mem xs x with h3 | h3
      · rw [h3]; exact List.mem_cons_self _ _
      · exact List.mem_cons_of_mem _ h3
    rw [← hf] at this
    have := List.mem_filter.mp this
    refine ⟨this.1, ?_⟩
    have := this.2
    simpa using this

theorem findByOrigin_isSome {cal : List Event} {key : String} {e : Event}
    (he : e ∈ cal) (ho : e.origin = some key) :
    ∃ m, findByOrigin cal key = some m := by
  rcases hf : findByOrigin cal key with _ | m
  · exact absurd ho (findByOrigin_eq_none.mp hf e he)
  · exact ⟨m, rfl⟩

theorem mem_findByTitleTime {cal : List Event} {ev d : Event}
    (h : d ∈ findByTitleTime cal ev) :
    d ∈ cal ∧ buildTitleTimeKey d = buildTitleTimeKey ev := by
  have h2 : d ∈ (if (firstColonSeg (buildTitleTimeKey ev) == "" || ev.start.isNone) = true
      then ([] : List Event)
      else cal.filter (fun item => buildTitleTimeKey item == buildTitleTimeKey ev)) := h
  split at h2
  · exact absurd h2 (List.not_mem_nil d)
  · have h3 := List.mem_filter.mp h2
    refine ⟨h3.1, ?_⟩
    have := h3.2
    simpa using this

theorem mem_validDuplicates {cal : List Event} {ev d : Event} {key : String}
    (h : d ∈ validDuplicates cal ev key) :
    d ∈ cal ∧ buildTitleTimeKey d = buildTitleTimeKey ev ∧ ¬d.origin = some key := by
  unfold validDuplicates at h
  have h2 := List.mem_filter.mp h
  have h3 := mem_findByTitleTime h2.1
  refine ⟨h3.1, h3.2, ?_⟩
  have := h2.2
  simpa using this

theorem tagCount_patch_congr {cal : List Event} {i : Nat} {b : MirrorBody}
    (h : ∀ e ∈ cal, e.id = i → e.origin = some b.origin) (k : String) :
    tagCount k (cal.map (fun e => if e.id == i then applyPatch e b else e)) =
      tagCount k cal := by
  unfold tagCount
  rw [List.filter_map]
  rw [List.length_map]
  apply congrArg
  apply List.filter_congr
  intro e he
  by_cases hid : e.id = i
  · have horig := h e he hid
    simp [Function.comp, hid, applyPatch, horig]
  · simp [Function.comp, hid]

/-- Helper: the loop of lines 364-386 never removes a calendar event whose
id differs from every listed duplicate. -/
theorem dupLoop_keeps (env : Env) (cur : Event) :
    ∀ (l : List Event) (adopted : Option Event) (st : SyncSt) (e : Event),
      e ∈ st.cal → (∀ d ∈ l, ¬e.id = d.id) →
      e ∈ (dupLoop env cur l adopted st).2.cal := by
  intro l
  induction l with
  | nil => intro adopted st e he _; exact he
  | cons dup rest ih =>
    intro adopted st e he hne
    have hrest : ∀ d ∈ rest, ¬e.id = d.id :=
      fun d hd => hne d (List.mem_cons_of_mem _ hd)
    have hdup : ¬e.id = dup.id := hne dup (List.mem_cons_self _ _)
    have hmem : e ∈ removeId dup.id st.cal := mem_removeId.mpr ⟨he, hdup⟩
    simp only [dupLoop]
    split
    · cases adopted with
      | none => exact ih _ _ _ he hrest
      | some u => exact ih _ _ _ he hrest
    · cases adopted with
      | some u =>
        by_cases h1 : (u.id == dup.id) = true
        · simp only [h1, if_true]
          exact ih _ _ _ he hrest
        · simp only [h1, if_false]
          by_cases h2 : env.deleteFail dup.id = true
          · simp only [h2, if_true]
            exact ih _ _ _ he hrest
          · simp only [h2, if_false]
            exact ih _ _ _ hmem hrest
      | none =>
        by_cases h2 : env.deleteFail dup.id = true
        · simp only [h2, if_true]
          exact ih _ _ _ he hrest
        · simp only [h2, if_false]
          exact ih _ _ _ hmem hrest

/-- C10: the title+time duplicate-handling branch only admits events
lacking the origin tag of the current key (or carrying a different one)
as deletion candidates, and a target event tagged with the current key is
still present after the whole scan. -/
theorem c10_dup_scan_never_deletes_tagged (env : Env) (st : SyncSt) (ev e : Event)
    (key : String)
    (hnd : (st.cal.map (fun x => x.id)).Nodup)
    (he : e ∈ st.cal) (ho : e.origin = some key) :
    e ∈ ((reconcileDuplicates env st ev key).2).cal ∧
      ∀ d ∈ validDuplicates st.cal ev key, ¬d.origin = some key := by
  constructor
  · apply dupLoop_keeps env (currentEventFrom ev key) _ none st e he
    intro d hd hid
    obtain ⟨hdc, _, hdo⟩ := mem_validDuplicates hd
    have hde : e = d := List.inj_on_of_nodup_map hnd he hdc hid
    rw [hde] at ho
    exact hdo ho
  · intro d hd
    exact (mem_validDuplicates hd).2.2

def c10M : Event :=
  { blankEvent 1 with
      summary := some "Standup"
      start := some ⟨some "2026-01-05T10:00:00Z", none⟩
      finish := some ⟨some "2026-01-05T10:30:00Z", none⟩
      origin := some "src:u1" }

def c10D : Event :=
  { blankEvent 2 with
      summary := some "Standup"
      start := some ⟨some "2026-01-05T10:00:00Z", none⟩
      finish := some ⟨some "2026-01-05T10:30:00Z", none⟩
      updated := some 100 }

def c10ev : Event :=
  { blankEvent 0 with
      summary := some "Standup"
      start := some ⟨some "2026-01-05T10:00:00Z", none⟩
      finish := some ⟨some "2026-01-05T10:30:00Z", none⟩
      iCalUID := some "u1"
      updated := some 50 }

def c10st : SyncSt := ⟨[c10M, c10D], 100, 0, 0, 0⟩

/-- Witness for C10 at a concrete calendar holding a tagged mirror and an
untagged duplicate. -/
theorem c10_witness :
    c10M ∈ ((reconcileDuplicates envNoFail c10st c10ev "src:u1").2).cal ∧
      ∀ d ∈ validDuplicates c10st.cal c10ev "src:u1", ¬d.origin = some "src:u1" :=
  c10_dup_scan_never_deletes_tagged envNoFail c10st c10ev c10M "src:u1"
    (by decide) (by decide) (by decide)

/-- C7: a cancelled source event deletes the origin-tagged mirror when
one exists (the one `findByOrigin` selects), and is a benign no-op when
none exists; no error is raised either way.  Line 325 consults only the
origin lookup, since the JS disjunction short-circuits on the promise
object. -/
theorem c7_cancelled_mirror_delete (env : Env) (srcId : String) (st : SyncSt) (ev : Event)
    (hc : ev.status = some "cancelled")
    (hdel : ∀ i, env.deleteFail i = false) :
    ∃ st2, processEvent env srcId st ev = .ok st2 ∧
      ((∀ e ∈ st.cal, ¬e.origin = some (buildOriginKey srcId ev)) → st2 = st) ∧
      ((∃ e ∈ st.cal, e.origin = some (buildOriginKey srcId ev)) →
        ∃ m, findByOrigin st.cal (buildOriginKey srcId ev) = some m ∧
          m.origin = some (buildOriginKey srcId ev) ∧
          st2.cal = removeId m.id st.cal ∧ st2.deletes = st.deletes + 1) := by
  rcases hf : findByOrigin st.cal (buildOriginKey srcId ev) with _ | m
  · refine ⟨st, ?_, fun _ => rfl, ?_⟩
    · simp [processEvent, hc, hf]
    · rintro ⟨e, he, ho⟩
      exact absurd ho (findByOrigin_eq_none.mp hf e he)
  · refine ⟨{ st with cal := removeId m.id st.cal, deletes := st.deletes + 1 }, ?_, ?_, ?_⟩
    · simp [processEvent, hc, hf, hdel]
    · intro hall
      obtain ⟨hm, hmo⟩ := findByOrigin_mem hf
      exact absurd hmo (hall m hm)
    · intro _
      exact ⟨m, rfl, (findByOrigin_mem hf).2, rfl, rfl⟩

def c7ev : Event := { blankEvent 0 with iCalUID := some "u9", status := some "cancelled" }

def c7M : Event := { blankEvent 7 with origin := some "src:u9" }

def c7st : SyncSt := ⟨[c7M], 100, 0, 0, 0⟩

/-- Witness for C7 at a concrete cancelled event whose mirror exists. -/
theorem c7_witness :
    ∃ st2, processEvent envNoFail "src" c7st c7ev = .ok st2 ∧
      ((∀ e ∈ c7st.cal, ¬e.origin = some (buildOriginKey "src" c7ev)) → st2 = c7st) ∧
      ((∃ e ∈ c7st.cal, e.origin = some (buildOriginKey "src" c7ev)) →
        ∃ m, findByOrigin c7st.cal (buildOriginKey "src" c7ev) = some m ∧
          m.origin = some (buildOriginKey "src" c7ev) ∧
          st2.cal = removeId m.id c7st.cal ∧ st2.deletes = c7st.deletes + 1) :=
  c7_cancelled_mirror_delete envNoFail "src" c7st c7ev rfl (fun _ => rfl)

/-- C9: with the lock file held by a live process, `main` takes the
`lockBusy` exit before building any calendar client: the sync loop is
never entered (no calendar read or write happens) and the lock file is
left as found; and two-step lock acquisition succeeds exactly when the
lock file is absent or records a dead pid, recording the caller pid on
success. -/
theorem c9_lock_exclusion :
    (∀ (env : Env) (alive : Nat → Bool) (selfPid lockFuel fuel p : Nat)
       (sources : List (String × SourceFetch)) (rs : RunSt),
       sources ≠ [] → alive p = true →
       mainRun env alive selfPid (lockFuel + 1) fuel (some p) sources rs =
         (.lockBusy, some p)) ∧
    (∀ (alive : Nat → Bool) (selfPid fuel : Nat) (lock : Option Nat),
       ∃ b lock2, acquireLock alive selfPid (fuel + 2) lock = some (b, lock2) ∧
         (b = true ↔ lock = none ∨ ∃ q, lock = some q ∧ alive q = false) ∧
         (b = true → lock2 = some selfPid)) := by
  constructor
  · intro env alive selfPid lockFuel fuel p sources rs hs hp
    have hne : sources.isEmpty = false := by
      cases sources with
      | nil => exact absurd rfl hs
      | cons a l => rfl
    simp [mainRun, hne, acquireLock, hp]
  · intro alive selfPid fuel lock
    cases lock with
    | none =>
      exact ⟨true, some selfPid, rfl, iff_of_true rfl (Or.inl rfl), fun _ => rfl⟩
    | some q =>
      by_cases hq : alive q = true
      · refine ⟨false, some q, ?_, ?_, ?_⟩
        · simp [acquireLock, hq]
        · apply iff_of_false
          · intro h; exact Bool.noConfusion h
          · rintro (h | ⟨q2, hq2, hd⟩)
            · exact Option.noConfusion h
            · injection hq2 with h3
              rw [← h3] at hd
              rw [hq] at hd
              exact Bool.noConfusion hd
        · intro h; exact Bool.noConfusion h
      · have hq2 : alive q = false := by
          cases h : alive q with
          | false => rfl
          | true => exact absurd h hq
        refine ⟨true, some selfPid, ?_, ?_, fun _ => rfl⟩
        · simp [acquireLock, hq2]
        · simp only [true_iff]
          exact Or.inr ⟨q, rfl, hq2⟩

def c9fetch : SourceFetch := fun _ _ => .ok ⟨[], none, none⟩

def c9rs : RunSt := ⟨fun _ => none, ⟨[], 0, 0, 0, 0⟩⟩

/-- Witness for C9: a live holder with pid 42 blocks a concrete run, and
acquisition on an absent lock file succeeds. -/
theorem c9_witness :
    mainRun envNoFail (fun _ => true) 7 3 5 (some 42) [("s1", c9fetch)] c9rs =
      (.lockBusy, some 42) ∧
    ∃ b lock2, acquireLock (fun _ => true) 7 4 none = some (b, lock2) ∧
      (b = true ↔ (none : Option Nat) = none ∨
        ∃ q, (none : Option Nat) = some q ∧ (fun _ => true : Nat → Bool) q = false) ∧
      (b = true → lock2 = some 7) :=
  ⟨c9_lock_exclusion.1 envNoFail (fun _ => true) 7 2 5 42 [("s1", c9fetch)] c9rs
      (by simp) rfl,
    c9_lock_exclusion.2 (fun _ => true) 7 2 none⟩

def c6ev : Event :=
  { blankEvent 0 with
      summary := some "Sync"
      start := some ⟨some "2026-01-06T09:00:00Z", none⟩
      finish := some ⟨some "2026-01-06T09:30:00Z", none⟩
      updated := some 40 }

def c6withDesc : Event :=
  { blankEvent 21 with
      summary := some "Sync"
      start := some ⟨some "2026-01-06T09:00:00Z", none⟩
      finish := some ⟨some "2026-01-06T09:30:00Z", none⟩
      updated := some 40
      description := some "notes" }

def c6noDesc : Event :=
  { blankEvent 22 with
      summary := some "Sync"
      start := some ⟨some "2026-01-06T09:00:00Z", none⟩
      finish := some ⟨some "2026-01-06T09:30:00Z", none⟩
      updated := some 40 }

def c6st : SyncSt := ⟨[c6withDesc, c6noDesc], 100, 0, 0, 0⟩

/-- C6: `isEventNewer` holds exactly when the first event has the
strictly later effective timestamp, or an equal timestamp and the
strictly higher detail score; a present non-blank description, a present
non-blank location, attendees, attachments and reminder overrides each
raise the score; and on a concrete calendar with two untagged title+time
duplicates with equal timestamps, of which exactly one has a
description, reconciliation keeps the described one (adopting and
patching it) and deletes the other. -/
theorem c6_freshness_comparison :
    (∀ a b, isEventNewer a b = true ↔
      (eventTimeMs b < eventTimeMs a ∨
        (eventTimeMs a = eventTimeMs b ∧
          getEventDetailScore b < getEventDetailScore a))) ∧
    (∀ e : Event, getEventDetailScore { e with description := some "x" } >
      getEventDetailScore { e with description := none }) ∧
    (∀ e : Event, getEventDetailScore { e with location := some "x" } >
      getEventDetailScore { e with location := none }) ∧
    (∀ (e : Event) (n : Nat), getEventDetailScore { e with attendeesCount := n + 1 } >
      getEventDetailScore { e with attendeesCount := 0 }) ∧
    (∀ (e : Event) (n : Nat), getEventDetailScore { e with attachmentsCount := n + 1 } >
      getEventDetailScore { e with attachmentsCount := 0 }) ∧
    (∀ (e : Event) (n : Nat), getEventDetailScore { e with reminderOverridesCount := n + 1 } >
      getEventDetailScore { e with reminderOverridesCount := 0 }) ∧
    (processEvent envNoFail "src" c6st c6ev).toOption.map
        (fun st => (st.cal.map (fun e => (e.id, e.description.isSome)), st.deletes)) =
      some ([(21, true)], 1) := by
  refine ⟨?_, ?_, ?_, ?_, ?_, ?_, ?_⟩
  · intro a b
    show (if eventTimeMs a ≠ eventTimeMs b
        then decide (eventTimeMs b < eventTimeMs a)
        else decide (getEventDetailScore b < getEventDetailScore a)) = true ↔ _
    by_cases h : eventTimeMs a = eventTimeMs b
    · rw [if_neg (not_not_intro h), decide_eq_true_eq]
      constructor
      · exact fun hs => Or.inr ⟨h, hs⟩
      · rintro (hlt | ⟨_, hs⟩)
        · rw [h] at hlt; exact absurd hlt (lt_irrefl _)
        · exact hs
    · rw [if_pos h, decide_eq_true_eq]
      constructor
      · exact fun hlt => Or.inl hlt
      · rintro (hlt | ⟨heq, _⟩)
        · exact hlt
        · exact absurd heq h
  · intro e
    have hx : (if jsTrim "x" ≠ "" then 2 else 0) = 2 := by decide
    simp only [getEventDetailScore, hx]
    omega
  · intro e
    have hx : (if jsTrim "x" ≠ "" then 1 else 0) = 1 := by decide
    simp only [getEventDetailScore, hx]
    omega
  · intro e n
    simp only [getEventDetailScore]
    omega
  · intro e n
    simp only [getEventDetailScore]
    omega
  · intro e n
    have h1 : (if n + 1 ≠ 0 then 1 else 0) = 1 := by simp
    have h0 : (if (0 : Nat) ≠ 0 then 1 else 0) = 0 := by simp
    simp only [getEventDetailScore, h1, h0]
    omega
  · decide

def c5D : Event :=
  { blankEvent 2 with
      summary := some "standup"
      start := some ⟨some "2026-01-07T10:00:00Z", none⟩
      finish := some ⟨some "2026-01-07T10:30:00Z", none⟩
      updated := some 100 }

def c5ev : Event :=
  { blankEvent 0 with
      summary := some "Standup"
      start := some ⟨some "2026-01-07T10:00:00Z", none⟩
      finish := some ⟨some "2026-01-07T10:30:00Z", none⟩
      iCalUID := some "u1"
      updated := some 50 }

def c5st : SyncSt := ⟨[c5D], 100, 0, 0, 0⟩

/-- Counterexample to C5: on a concrete calendar whose single untagged
title+time duplicate wins the freshness comparison, no create occurs,
but the winner is not retained as-is: the run patches it, overwriting
its summary and writing the origin tag onto it in the same run. -/
theorem c5_counterexample :
    c5D.origin = none ∧ c5D.summary = some "standup" ∧
    (processEvent envNoFail "src" c5st c5ev).toOption.map
        (fun st => (st.cal.map (fun e => (e.id, e.origin, e.summary)), st.inserts)) =
      some ([(2, some "src:u1", some "Standup")], 0) := by
  decide

/-- C5 as amended: when the single valid title+time duplicate wins the
freshness comparison, no create occurs, and the winning duplicate is
adopted as the mirror: the run patches it in place with the mirror body
built from the source event, overwriting the mirrored fields and writing
the origin tag, instead of deferring reconciliation. -/
theorem c5_amended (env : Env) (srcId : String) (st : SyncSt) (ev D : Event)
    (hnc : ¬ev.status = some "cancelled")
    (hv : validDuplicates st.cal ev (buildOriginKey srcId ev) = [D])
    (hnew : isEventNewer D (currentEventFrom ev (buildOriginKey srcId ev)) = true)
    (hpf : env.patchFail D.id = false) :
    processEvent env srcId st ev =
      .ok (patchAt st D.id (mirrorBodyFrom ev (buildOriginKey srcId ev))) ∧
    (patchAt st D.id (mirrorBodyFrom ev (buildOriginKey srcId ev))).inserts = st.inserts ∧
    (patchAt st D.id (mirrorBodyFrom ev (buildOriginKey srcId ev))).deletes = st.deletes := by
  have hct : (ev.status == some "cancelled") = false := by
    simp [hnc]
  have hscan : reconcileDuplicates env st ev (buildOriginKey srcId ev) = (some D, st) := by
    unfold reconcileDuplicates
    rw [hv]
    simp only [dupLoop, Option.getD, hnew, if_true]
  refine ⟨?_, rfl, rfl⟩
  simp only [processEvent, hct, Bool.false_eq_true, if_false, hscan, hpf]

def c4M : Event :=
  { blankEvent 1 with
      summary := some "Standup"
      start := some ⟨some "2026-01-08T10:00:00Z", none⟩
      finish := some ⟨some "2026-01-08T10:30:00Z", none⟩
      created := some 10
      updated := some 5
      origin := some "src:u1" }

def c4D : Event :=
  { blankEvent 2 with
      summary := some "Standup"
      start := some ⟨some "2026-01-08T10:00:00Z", none⟩
      finish := some ⟨some "2026-01-08T10:30:00Z", none⟩
      updated := some 7 }

def c4ev : Event :=
  { blankEvent 0 with
      summary := some "Standup"
      start := some ⟨some "2026-01-08T10:00:00Z", none⟩
      finish := some ⟨some "2026-01-08T10:30:00Z", none⟩
      iCalUID := some "u1"
      updated := some 50 }

def c4st : SyncSt := ⟨[c4M, c4D], 100, 0, 0, 0⟩

/-- Counterexample to C4: on a concrete calendar, the origin-tag lookup
for the identity key succeeds (it finds event 1), yet processing the
event still runs the title+time heuristic and deletes event 2 through
it — so the title+time layer is not gated on the origin layer finding
nothing, contradicting the claimed layering. -/
theorem c4_counterexample :
    findByOrigin c4st.cal (buildOriginKey "src" c4ev) = some c4M ∧
    (processEvent envNoFail "src" c4st c4ev).toOption.map
        (fun st => (st.cal.map (fun e => e.id), st.deletes)) =
      some ([1], 1) := by
  decide

/-- C4 as amended: for a non-cancelled event (with no injected write
failure) the resolution order of the code is: the title+time duplicate
scan runs first and its adoptee, when there is one, is patched as the
mirror regardless of the origin lookup; only when nothing was adopted is
the origin-tag lookup consulted, immediately before the create; and the
insert happens only when that lookup also finds nothing.  The
stable-identifier lookup with backfill is reached only in the
insert-failure recovery path, which no-failure runs never enter. -/
theorem c4_amended (env : Env) (srcId : String) (st : SyncSt) (ev : Event)
    (hnc : ¬ev.status = some "cancelled")
    (hins : ∀ k, env.insertFail k = none)
    (hpf : ∀ i, env.patchFail i = false) :
    processEvent env srcId st ev = .ok (
      match reconcileDuplicates env st ev (buildOriginKey srcId ev) with
      | (some u, st1) => patchAt st1 u.id (mirrorBodyFrom ev (buildOriginKey srcId ev))
      | (none, st1) =>
        match findByOrigin st1.cal (buildOriginKey srcId ev) with
        | some m => patchAt st1 m.id (mirrorBodyFrom ev (buildOriginKey srcId ev))
        | none => doInsert st1 (mirrorBodyFrom ev (buildOriginKey srcId ev))) := by
  have hct : (ev.status == some "cancelled") = false := by
    simp [hnc]
  rcases hscan : reconcileDuplicates env st ev (buildOriginKey srcId ev) with ⟨a, st1⟩
  cases a with
  | some u =>
    simp only [processEvent, hct, Bool.false_eq_true, if_false, hscan, hpf]
  | none =>
    rcases hfo : findByOrigin st1.cal (buildOriginKey srcId ev) with _ | m
    · simp only [processEvent, hct, Bool.false_eq_true, if_false, hscan, hfo, hins]
    · simp only [processEvent, hct, Bool.false_eq_true, if_false, hscan, hfo, hpf]

def c4wD : Event :=
  { blankEvent 2 with
      summary := some "Standup"
      start := some ⟨some "2026-01-08T10:00:00Z", none⟩
      finish := some ⟨some "2026-01-08T10:30:00Z", none⟩
      updated := some 90 }

def c4wst : SyncSt := ⟨[c4M, c4wD], 100, 0, 0, 0⟩

/-- Witness for the amended C4 at a concrete input where the duplicate
scan adopts the newer untagged duplicate. -/
theorem c4_witness :
    processEvent envNoFail "src" c4wst c4ev = .ok (
      match reconcileDuplicates envNoFail c4wst c4ev (buildOriginKey "src" c4ev) with
      | (some u, st1) => patchAt st1 u.id (mirrorBodyFrom c4ev (buildOriginKey "src" c4ev))
      | (none, st1) =>
        match findByOrigin st1.cal (buildOriginKey "src" c4ev) with
        | some m => patchAt st1 m.id (mirrorBodyFrom c4ev (buildOriginKey "src" c4ev))
        | none => doInsert st1 (mirrorBodyFrom c4ev (buildOriginKey "src" c4ev))) :=
  c4_amended envNoFail "src" c4wst c4ev (by decide) (fun _ => rfl) (fun _ => rfl)

/-- Witness for the amended C5 at the concrete calendar of the
counterexample. -/
theorem c5_witness :
    processEvent envNoFail "src" c5st c5ev =
      .ok (patchAt c5st c5D.id (mirrorBodyFrom c5ev (buildOriginKey "src" c5ev))) ∧
    (patchAt c5st c5D.id (mirrorBodyFrom c5ev (buildOriginKey "src" c5ev))).inserts =
      c5st.inserts ∧
    (patchAt c5st c5D.id (mirrorBodyFrom c5ev (buildOriginKey "src" c5ev))).deletes =
      c5st.deletes :=
  c5_amended envNoFail "src" c5st c5ev c5D (by decide) (by decide) (by decide) rfl

def c1M : Event :=
  { blankEvent 1 with
      summary := some "Standup"
      start := some ⟨some "2026-01-09T10:00:00Z", none⟩
      finish := some ⟨some "2026-01-09T10:30:00Z", none⟩
      created := some 10
      updated := some 5
      origin := some "src:u1" }

def c1D : Event :=
  { blankEvent 2 with
      summary := some "Standup"
      start := some ⟨some "2026-01-09T10:00:00Z", none⟩
      finish := some ⟨some "2026-01-09T10:30:00Z", none⟩
      updated := some 100 }

def c1ev : Event :=
  { blankEvent 0 with
      summary := some "Standup"
      start := some ⟨some "2026-01-09T10:00:00Z", none⟩
      finish := some ⟨some "2026-01-09T10:30:00Z", none⟩
      iCalUID := some "u1"
      updated := some 50 }

def c1st : SyncSt := ⟨[c1M, c1D], 100, 0, 0, 0⟩

/-- Counterexample to C1: a completed run over one page with one event,
starting from a target that satisfies the invariant (exactly one
non-deleted mirror tagged with the key), ends with two non-deleted
events tagged with that key: the duplicate-adoption patch wrote the tag
onto a second event without any origin-lookup re-check. -/
theorem c1_counterexample :
    tagCount "src:u1" c1st.cal = 1 ∧
    (processItems envNoFail "src" c1st [c1ev]).toOption.map
        (fun st => tagCount "src:u1" st.cal) = some 2 := by
  decide

/-- C1 as amended: the insert path does re-check the origin lookup, so
processing an event whose title+time key matches no differently-tagged
target event preserves the at-most-one invariant for every key; the
duplicate-adoption patch path, however, can tag a second event, so the
invariant is not preserved by arbitrary runs. -/
theorem c1_amended (env : Env) (srcId : String) (st : SyncSt) (ev : Event)
    (hff : FailureFree env)
    (hnd : (st.cal.map (fun e => e.id)).Nodup)
    (hvd : validDuplicates st.cal ev (buildOriginKey srcId ev) = [])
    (hcount : ∀ k, tagCount k st.cal ≤ 1) :
    ∃ st2, processEvent env srcId st ev = .ok st2 ∧ ∀ k, tagCount k st2.cal ≤ 1 := by
  obtain ⟨hif, hdf, hpf⟩ := hff
  by_cases hc : (ev.status == some "cancelled") = true
  · rcases hfo : findByOrigin st.cal (buildOriginKey srcId ev) with _ | m
    · exact ⟨st, by simp [processEvent, hc, hfo], hcount⟩
    · refine ⟨{ st with cal := removeId m.id st.cal, deletes := st.deletes + 1 }, ?_, ?_⟩
      · simp [processEvent, hc, hfo, hdf]
      · intro k
        exact le_trans (tagCount_sublist (removeId_sublist m.id st.cal) k) (hcount k)
  · have hct : (ev.status == some "cancelled") = false := by
      simp only [Bool.not_eq_true] at hc
      exact hc
    have hscan : reconcileDuplicates env st ev (buildOriginKey srcId ev) = (none, st) := by
      unfold reconcileDuplicates
      rw [hvd]
      rfl
    rcases hfo : findByOrigin st.cal (buildOriginKey srcId ev) with _ | m
    · refine ⟨doInsert st (mirrorBodyFrom ev (buildOriginKey srcId ev)), ?_, ?_⟩
      · simp only [processEvent, hct, Bool.false_eq_true, if_false, hscan, hfo, hif]
      · intro k
        have hz : tagCount (buildOriginKey srcId ev) st.cal = 0 :=
          tagCount_eq_zero_iff.mpr (findByOrigin_eq_none.mp hfo)
        have happ := tagCount_append_one k st.cal
          (insertFromBody st.nextId (mirrorBodyFrom ev (buildOriginKey srcId ev)))
        by_cases hk : (insertFromBody st.nextId
            (mirrorBodyFrom ev (buildOriginKey srcId ev))).origin = some k
        · have hkey : k = buildOriginKey srcId ev := by
            have : some (buildOriginKey srcId ev) = some k := hk
            injection this with h2
            exact h2.symm
          show tagCount k (st.cal ++ [_]) ≤ 1
          rw [happ, if_pos hk, hkey, hz]
        · show tagCount k (st.cal ++ [_]) ≤ 1
          rw [happ, if_neg hk]
          simpa using hcount k
    · refine ⟨patchAt st m.id (mirrorBodyFrom ev (buildOriginKey srcId ev)), ?_, ?_⟩
      · simp only [processEvent, hct, Bool.false_eq_true, if_false, hscan, hfo, hpf]
      · intro k
        have hcongr := @tagCount_patch_congr st.cal m.id
          (mirrorBodyFrom ev (buildOriginKey srcId ev)) ?_ k
        · show tagCount k (st.cal.map _) ≤ 1
          rw [hcongr]
          exact hcount k
        · intro e he hid
          obtain ⟨hm, hmo⟩ := findByOrigin_mem hfo
          have : e = m := List.inj_on_of_nodup_map hnd he hm hid
          rw [this, hmo]
          rfl

def c1wM : Event :=
  { blankEvent 1 with
      summary := some "Standup"
      start := some ⟨some "2026-01-09T10:00:00Z", none⟩
      finish := some ⟨some "2026-01-09T10:30:00Z", none⟩
      created := some 10
      updated := some 5
      origin := some "src:u1" }

def c1wst : SyncSt := ⟨[c1wM], 100, 0, 0, 0⟩

/-- Witness for the amended C1 at a concrete state with one tagged
mirror and no valid duplicate. -/
theorem c1_witness :
    ∃ st2, processEvent envNoFail "src" c1wst c1ev = .ok st2 ∧
      ∀ k, tagCount k st2.cal ≤ 1 :=
  c1_amended envNoFail "src" c1wst c1ev envNoFail_ff (by decide) (by decide)
    (fun k => le_trans (tagCount_le_length k c1wst.cal) (by decide))

def c3env : Env := ⟨fun _ => some "socket hang up", fun _ => false, fun _ => false⟩

def c3ev1 : Event :=
  { blankEvent 0 with
      summary := some "Alpha"
      start := some ⟨some "2026-01-10T10:00:00Z", none⟩
      finish := some ⟨some "2026-01-10T10:30:00Z", none⟩
      iCalUID := some "u1"
      updated := some 50 }

def c3ev2 : Event :=
  { blankEvent 0 with
      summary := some "Beta"
      start := some ⟨some "2026-01-10T11:00:00Z", none⟩
      finish := some ⟨some "2026-01-10T11:30:00Z", none⟩
      iCalUID := some "u2"
      updated := some 50 }

def c3src1 : SourceFetch := fun _ _ => .ok ⟨[c3ev1], none, none⟩

def c3src2 : SourceFetch := fun _ _ => .ok ⟨[c3ev2], none, none⟩

def c3rs : RunSt := ⟨fun _ => none, ⟨[], 100, 0, 0, 0⟩⟩

/-- Counterexample to C3: an insert failure whose message carries no
duplication signal is rethrown by the per-event handling (line 435),
caught by no per-page handler, so processing the page stops at the first
event (the result is the error, not a state in which the second event
was mirrored); and since the per-source loop of `main` (lines 524-526)
has no catch either, the same failure aborts the remaining sources. -/
theorem c3_counterexample :
    processItems c3env "s1" ⟨[], 100, 0, 0, 0⟩ [c3ev1, c3ev2] =
      .error ⟨none, "socket hang up"⟩ ∧
    runSources c3env 5 [("s1", c3src1), ("s2", c3src2)] c3rs =
      .error ⟨none, "socket hang up"⟩ := by
  exact ⟨rfl, rfl⟩

def c3aenv : Env := ⟨fun _ => some "boom", fun _ => false, fun _ => false⟩

def c3asrc1 : SourceFetch := fun _ _ => .ok ⟨[c3ev1], none, none⟩

def c3asrc2 : SourceFetch := fun _ _ => .ok ⟨[c3ev2], none, none⟩

def c3ars : RunSt := ⟨fun _ => none, ⟨[], 100, 0, 0, 0⟩⟩

/-- C3 as amended: failure containment is narrower than claimed.  Every
failure in the cancelled-event branch is contained (deletes are guarded,
so a cancelled event never errors, whatever the oracles inject); an
insert failure whose message signals duplication is contained as well
when patches succeed; but an insert failure unrelated to duplication,
with no mirror found on re-resolution, propagates out of the event, out
of the page, and aborts the remaining sources of the run. -/
theorem c3_amended :
    (∀ (env : Env) (srcId : String) (st : SyncSt) (ev : Event),
      ev.status = some "cancelled" →
      ∃ st2, processEvent env srcId st ev = .ok st2) ∧
    (∀ (env : Env) (srcId : String) (st : SyncSt) (ev : Event) (msg : String),
      ¬ev.status = some "cancelled" →
      env.insertFail (buildOriginKey srcId ev) = some msg →
      strIncludes msg "duplicate" = true →
      (∀ i, env.patchFail i = false) →
      ∃ st2, processEvent env srcId st ev = .ok st2) ∧
    processItems c3aenv "s1" ⟨[], 100, 0, 0, 0⟩ [c3ev1, c3ev2] = .error ⟨none, "boom"⟩ ∧
    runSources c3aenv 5 [("s1", c3asrc1), ("s2", c3asrc2)] c3ars =
      .error ⟨none, "boom"⟩ := by
  refine ⟨?_, ?_, rfl, rfl⟩
  · intro env srcId st ev hc
    have hct : (ev.status == some "cancelled") = true := by simp [hc]
    rcases hfo : findByOrigin st.cal (buildOriginKey srcId ev) with _ | m
    · exact ⟨st, by simp [processEvent, hct, hfo]⟩
    · by_cases hd : env.deleteFail m.id = true
      · exact ⟨st, by simp [processEvent, hct, hfo, hd]⟩
      · have hd2 : env.deleteFail m.id = false := by
          simp only [Bool.not_eq_true] at hd
          exact hd
        exact ⟨{ st with cal := removeId m.id st.cal, deletes := st.deletes + 1 },
          by simp [processEvent, hct, hfo, hd2]⟩
  · intro env srcId st ev msg hnc hfail hdup hpf
    have hct : (ev.status == some "cancelled") = false := by simp [hnc]
    rcases hscan : reconcileDuplicates env st ev (buildOriginKey srcId ev) with ⟨a, st1⟩
    cases a with
    | some u =>
      exact ⟨patchAt st1 u.id (mirrorBodyFrom ev (buildOriginKey srcId ev)),
        by simp only [processEvent, hct, Bool.false_eq_true, if_false, hscan, hpf]⟩
    | none =>
      rcases hfo : findByOrigin st1.cal (buildOriginKey srcId ev) with _ | m
      · rcases hical : findByICalAndBackfill env st1.cal ev (buildOriginKey srcId ev)
          with ⟨w, cal2⟩
        cases w with
        | some w0 =>
          exact ⟨patchAt { st1 with cal := cal2 } w0.id
              (mirrorBodyFrom ev (buildOriginKey srcId ev)),
            by simp only [processEvent, hct, Bool.false_eq_true, if_false, hscan, hfo, hfail,
              hical, hpf]⟩
        | none =>
          exact ⟨st1, by
            simp only [processEvent, hct, Bool.false_eq_true, if_false, hscan, hfo, hfail,
              hical, hdup, Bool.true_or, if_true]⟩
      · exact ⟨patchAt st1 m.id (mirrorBodyFrom ev (buildOriginKey srcId ev)), by
          simp only [processEvent, hct, Bool.false_eq_true, if_false, hscan, hfo, hfail,
            hpf]⟩

def c3wev : Event :=
  { blankEvent 0 with
      iCalUID := some "u7"
      status := some "cancelled" }

def c3wenv : Env := ⟨fun _ => some "duplicate entry already present", fun _ => true, fun _ => false⟩

def c3wev2 : Event :=
  { blankEvent 0 with
      summary := some "Gamma"
      start := some ⟨some "2026-01-10T12:00:00Z", none⟩
      finish := some ⟨some "2026-01-10T12:30:00Z", none⟩
      iCalUID := some "u8"
      updated := some 50 }

/-- Witness for the amended C3: a cancelled event under an oracle that
fails every delete still completes, and a live event whose insert fails
with a duplication message completes as well. -/
theorem c3_witness :
    (∃ st2, processEvent c3wenv "src" ⟨[], 100, 0, 0, 0⟩ c3wev = .ok st2) ∧
    (∃ st2, processEvent c3wenv "src" ⟨[], 100, 0, 0, 0⟩ c3wev2 = .ok st2) :=
  ⟨c3_amended.1 c3wenv "src" ⟨[], 100, 0, 0, 0⟩ c3wev rfl,
    c3_amended.2.1 c3wenv "src" ⟨[], 100, 0, 0, 0⟩ c3wev2
      "duplicate entry already present" (by decide) rfl (by decide) (fun _ => rfl)⟩

/-- Calendar after a patch of the event with id `i` (the list shape of
`patchAt`). -/
def patchCal (cal : List Event) (i : Nat) (b : MirrorBody) : List Event :=
  cal.map (fun e => if e.id == i then applyPatch e b else e)

theorem patchAt_cal (st : SyncSt) (i : Nat) (b : MirrorBody) :
    (patchAt st i b).cal = patchCal st.cal i b := rfl

/-- Shape hypotheses letting the duplicate scan and the mirror body act
on an event: the summary is present, the scan guard passes, and both
time bounds are present. -/
def WellFormed (ev : Event) : Prop :=
  ev.summary.isSome = true ∧
  ¬firstColonSeg (buildTitleTimeKey ev) = "" ∧
  ev.start.isSome = true ∧ ev.finish.isSome = true

/-- A page item the idempotence analysis covers: cancelled, or
well-formed. -/
def ItemOk (ev : Event) : Prop :=
  ev.status = some "cancelled" ∨ WellFormed ev

/-- Reconciliation for `ev` is settled in `cal`: for a live event, some
origin-tagged event carries its title+time key and every event carrying
that key is tagged; for a cancelled one, no tagged event remains. -/
def DoneFor (srcId : String) (ev : Event) (cal : List Event) : Prop :=
  if ev.status = some "cancelled" then
    ∀ e ∈ cal, ¬e.origin = some (buildOriginKey srcId ev)
  else
    (∃ e ∈ cal, e.origin = some (buildOriginKey srcId ev) ∧
      buildTitleTimeKey e = buildTitleTimeKey ev) ∧
    (∀ e ∈ cal, buildTitleTimeKey e = buildTitleTimeKey ev →
      e.origin = some (buildOriginKey srcId ev))

/-- The precondition the first pass needs per item: at most one tagged
mirror and at most one valid title+time duplicate. -/
def PendingFor (srcId : String) (ev : Event) (cal : List Event) : Prop :=
  tagCount (buildOriginKey srcId ev) cal ≤ 1 ∧
  (validDuplicates cal ev (buildOriginKey srcId ev)).length ≤ 1

/-- Two page items that cannot interfere: distinct identity keys and
distinct title+time keys. -/
def SepKeys (srcId : String) (a b : Event) : Prop :=
  ¬buildOriginKey srcId a = buildOriginKey srcId b ∧
  ¬buildTitleTimeKey a = buildTitleTimeKey b

/-- Calendar ids are distinct and below the insert counter. -/
def GoodIds (st : SyncSt) : Prop :=
  (st.cal.map (fun e => e.id)).Nodup ∧ ∀ e ∈ st.cal, e.id < st.nextId

theorem sep_symm {srcId : String} {a b : Event} (h : SepKeys srcId a b) : SepKeys srcId b a :=
  ⟨fun h2 => h.1 h2.symm, fun h2 => h.2 h2.symm⟩

theorem tt_congr {a b : Event} (hs : a.summary = b.summary) (h1 : a.start = b.start)
    (h2 : a.finish = b.finish) : buildTitleTimeKey a = buildTitleTimeKey b := by
  unfold buildTitleTimeKey
  rw [hs, h1, h2]

theorem applyPatch_id (e : Event) (b : MirrorBody) : (applyPatch e b).id = e.id := rfl

theorem applyPatch_origin (e : Event) (b : MirrorBody) :
    (applyPatch e b).origin = some b.origin := rfl

theorem insertFromBody_origin (n : Nat) (b : MirrorBody) :
    (insertFromBody n b).origin = some b.origin := rfl

theorem tt_applyPatch {ev : Event} (hw : WellFormed ev) (e : Event) (key : String) :
    buildTitleTimeKey (applyPatch e (mirrorBodyFrom ev key)) = buildTitleTimeKey ev := by
  obtain ⟨hs, _, hst, hfi⟩ := hw
  rcases hsum : ev.summary with _ | s
  · rw [hsum] at hs; exact absurd hs (by simp)
  rcases hstart : ev.start with _ | t1
  · rw [hstart] at hst; exact absurd hst (by simp)
  rcases hfin : ev.finish with _ | t2
  · rw [hfin] at hfi; exact absurd hfi (by simp)
  apply tt_congr
  · show some (mirrorBodyFrom ev key).summary = ev.summary
    simp [mirrorBodyFrom, hsum]
  · show ((mirrorBodyFrom ev key).start <|> e.start) = ev.start
    simp [mirrorBodyFrom, hstart]
  · show ((mirrorBodyFrom ev key).finish <|> e.finish) = ev.finish
    simp [mirrorBodyFrom, hfin]

theorem tt_insertFromBody {ev : Event} (hw : WellFormed ev) (n : Nat) (key : String) :
    buildTitleTimeKey (insertFromBody n (mirrorBodyFrom ev key)) = buildTitleTimeKey ev := by
  obtain ⟨hs, _, hst, hfi⟩ := hw
  rcases hsum : ev.summary with _ | s
  · rw [hsum] at hs; exact absurd hs (by simp)
  apply tt_congr
  · show some (mirrorBodyFrom ev key).summary = ev.summary
    simp [mirrorBodyFrom, hsum]
  · show (mirrorBodyFrom ev key).start = ev.start
    simp [mirrorBodyFrom]
  · show (mirrorBodyFrom ev key).finish = ev.finish
    simp [mirrorBodyFrom]

theorem findByTitleTime_eq {cal : List Event} {ev : Event} (hw : WellFormed ev) :
    findByTitleTime cal ev =
      cal.filter (fun item => buildTitleTimeKey item == buildTitleTimeKey ev) := by
  obtain ⟨_, ht, hst, _⟩ := hw
  have h1 : (firstColonSeg (buildTitleTimeKey ev) == "") = false := by
    simp [ht]
  have h2 : ev.start.isNone = false := by
    rcases h : ev.start with _ | t
    · rw [h] at hst; exact absurd hst (by simp)
    · rfl
  show (if (firstColonSeg (buildTitleTimeKey ev) == "" || ev.start.isNone) = true
      then ([] : List Event)
      else cal.filter (fun item => buildTitleTimeKey item == buildTitleTimeKey ev)) = _
  rw [h1, h2]
  rfl

theorem mem_validDuplicates_intro {cal : List Event} {ev e : Event} {key : String}
    (hw : WellFormed ev) (he : e ∈ cal)
    (ht : buildTitleTimeKey e = buildTitleTimeKey ev)
    (ho : ¬e.origin = some key) :
    e ∈ validDuplicates cal ev key := by
  unfold validDuplicates
  rw [findByTitleTime_eq hw]
  apply List.mem_filter.mpr
  refine ⟨List.mem_filter.mpr ⟨he, by simp [ht]⟩, by simp [ho]⟩

theorem matchers_tagged_of_valid_nil {cal : List Event} {ev : Event} {key : String}
    (hw : WellFormed ev) (hv : validDuplicates cal ev key = []) :
    ∀ e ∈ cal, buildTitleTimeKey e = buildTitleTimeKey ev → e.origin = some key := by
  intro e he ht
  by_cases ho : e.origin = some key
  · exact ho
  · have := mem_validDuplicates_intro hw he ht ho
    rw [hv] at this
    exact absurd this (List.not_mem_nil e)

theorem valid_nil_of_matchers_tagged {cal : List Event} {ev : Event} {key : String}
    (hB : ∀ e ∈ cal, buildTitleTimeKey e = buildTitleTimeKey ev →
      e.origin = some key) :
    validDuplicates cal ev key = [] := by
  unfold validDuplicates
  apply List.filter_eq_nil_iff.mpr
  intro d hd
  obtain ⟨hdc, hdt⟩ := mem_findByTitleTime hd
  simp [hB d hdc hdt]

theorem filter_length_mono {α : Type} {p q : α → Bool} :
    ∀ (l : List α), (∀ a ∈ l, p a = true → q a = true) →
      (l.filter p).length ≤ (l.filter q).length := by
  intro l
  induction l with
  | nil => intro _; exact Nat.le_refl 0
  | cons x xs ih =>
    intro h
    have hxs := ih (fun a ha => h a (List.mem_cons_of_mem _ ha))
    by_cases hp : p x = true
    · have hq := h x (List.mem_cons_self _ _) hp
      simp only [List.filter_cons, hp, hq, if_true, List.length_cons]
      exact Nat.succ_le_succ hxs
    · have hp2 : p x = false := by
        rcases h2 : p x with _ | _
        · rfl
        · exact absurd h2 hp
      simp only [List.filter_cons, hp2, Bool.false_eq_true, if_false]
      rcases hq : q x with _ | _
      · simpa using hxs
      · simp only [if_true, List.length_cons]
        exact Nat.le_succ_of_le hxs

theorem two_mem_le_length {α : Type} {a b : α} :
    ∀ {l : List α}, a ∈ l → b ∈ l → ¬a = b → 2 ≤ l.length := by
  intro l
  induction l with
  | nil => intro ha _ _; exact absurd ha (List.not_mem_nil a)
  | cons x xs ih =>
    intro ha hb hne
    rcases List.mem_cons.mp ha with hax | hax
    · rcases List.mem_cons.mp hb with hbx | hbx
      · exact absurd (hax.trans hbx.symm) hne
      · have : 1 ≤ xs.length := List.length_pos_of_mem hbx
        simp only [List.length_cons]
        omega
    · rcases List.mem_cons.mp hb with hbx | hbx
      · have : 1 ≤ xs.length := List.length_pos_of_mem hax
        simp only [List.length_cons]
        omega
      · have := ih hax hbx hne
        simp only [List.length_cons]
        omega

theorem ids_patchCal (cal : List Event) (i : Nat) (b : MirrorBody) :
    (patchCal cal i b).map (fun e => e.id) = cal.map (fun e => e.id) := by
  unfold patchCal
  rw [List.map_map]
  apply List.map_congr_left
  intro e _
  by_cases hid : (e.id == i) = true
  · simp [Function.comp, hid, applyPatch]
  · simp only [Function.comp]
    rw [if_neg hid]

theorem mem_patchCal_of_ne {cal : List Event} {i : Nat} {b : MirrorBody} {e : Event}
    (he : e ∈ cal) (hne : ¬e.id = i) : e ∈ patchCal cal i b :=
  List.mem_map.mpr ⟨e, he, by simp [hne]⟩

theorem mem_patchCal_target {cal : List Event} {i : Nat} {b : MirrorBody} {m : Event}
    (hm : m ∈ cal) (hid : m.id = i) : applyPatch m b ∈ patchCal cal i b :=
  List.mem_map.mpr ⟨m, hm, by simp [hid]⟩

theorem mem_patchCal_elim {cal : List Event} {i : Nat} {b : MirrorBody} {e2 : Event}
    (h : e2 ∈ patchCal cal i b) :
    ∃ e, e ∈ cal ∧ ((e.id = i ∧ e2 = applyPatch e b) ∨ (¬e.id = i ∧ e2 = e)) := by
  obtain ⟨e, he, heq⟩ := List.mem_map.mp h
  by_cases hid : e.id = i
  · exact ⟨e, he, Or.inl ⟨hid, by rw [← heq]; simp [hid]⟩⟩
  · exact ⟨e, he, Or.inr ⟨hid, by rw [← heq]; simp [hid]⟩⟩

theorem tagCount_patchCal_le {cal : List Event} {i : Nat} {b : MirrorBody} {k : String}
    (hb : ¬b.origin = k) : tagCount k (patchCal cal i b) ≤ tagCount k cal := by
  unfold tagCount patchCal
  rw [List.filter_map, List.length_map]
  apply filter_length_mono
  intro e _ hp
  simp only [Function.comp] at hp
  by_cases hid : (e.id == i) = true
  · rw [if_pos hid] at hp
    rw [show (applyPatch e b).origin = some b.origin from rfl] at hp
    have : b.origin = k := by simpa using hp
    exact absurd this hb
  · rw [if_neg hid] at hp
    exact hp

theorem findByTitleTime_guard_true {cal : List Event} {ev : Event}
    (hg : (firstColonSeg (buildTitleTimeKey ev) == "" || ev.start.isNone) = true) :
    findByTitleTime cal ev = [] := by
  have h0 : findByTitleTime cal ev =
      (if (firstColonSeg (buildTitleTimeKey ev) == "" || ev.start.isNone) = true
       then ([] : List Event)
       else cal.filter (fun item => buildTitleTimeKey item == buildTitleTimeKey ev)) := rfl
  rw [h0, if_pos hg]

theorem findByTitleTime_guard_false {cal : List Event} {ev : Event}
    (hg : (firstColonSeg (buildTitleTimeKey ev) == "" || ev.start.isNone) = false) :
    findByTitleTime cal ev =
      cal.filter (fun item => buildTitleTimeKey item == buildTitleTimeKey ev) := by
  have h0 : findByTitleTime cal ev =
      (if (firstColonSeg (buildTitleTimeKey ev) == "" || ev.start.isNone) = true
       then ([] : List Event)
       else cal.filter (fun item => buildTitleTimeKey item == buildTitleTimeKey ev)) := rfl
  rw [h0, hg]
  simp

theorem validDuplicates_sublist {cal2 cal : List Event} {ev : Event} {k : String}
    (h : cal2.Sublist cal) :
    (validDuplicates cal2 ev k).Sublist (validDuplicates cal ev k) := by
  unfold validDuplicates
  rcases hg : (firstColonSeg (buildTitleTimeKey ev) == "" || ev.start.isNone) with _ | _
  · rw [findByTitleTime_guard_false hg, findByTitleTime_guard_false hg]
    exact (h.filter _).filter _
  · simp only [findByTitleTime_guard_true hg]
    exact List.Sublist.refl _

theorem validDuplicates_patchCal_le {cal : List Event} {i : Nat} {ev evB : Event}
    {key k2 : String} (hw : WellFormed evB)
    (hne : ¬buildTitleTimeKey evB = buildTitleTimeKey ev) :
    (validDuplicates (patchCal cal i (mirrorBodyFrom evB key)) ev k2).length ≤
      (validDuplicates cal ev k2).length := by
  unfold validDuplicates
  rcases hg : (firstColonSeg (buildTitleTimeKey ev) == "" || ev.start.isNone) with _ | _
  · rw [findByTitleTime_guard_false hg, findByTitleTime_guard_false hg]
    rw [List.filter_filter, List.filter_filter]
    unfold patchCal
    rw [List.filter_map, List.length_map]
    apply filter_length_mono
    intro e _ hp
    simp only [Function.comp] at hp
    by_cases hid : (e.id == i) = true
    · rw [if_pos hid] at hp
      have htt : buildTitleTimeKey (applyPatch e (mirrorBodyFrom evB key)) =
          buildTitleTimeKey evB := tt_applyPatch hw e key
      rw [Bool.and_eq_true] at hp
      have := hp.2
      rw [htt] at this
      have h2 : buildTitleTimeKey evB = buildTitleTimeKey ev := by simpa using this
      exact absurd h2 hne
    · rw [if_neg hid] at hp
      exact hp
  · simp only [findByTitleTime_guard_true hg]
    exact Nat.le_refl _

theorem validDuplicates_append_le {cal : List Event} {ev new : Event} {k2 : String}
    (hne : ¬buildTitleTimeKey new = buildTitleTimeKey ev) :
    (validDuplicates (cal ++ [new]) ev k2).length ≤
      (validDuplicates cal ev k2).length := by
  unfold validDuplicates
  rcases hg : (firstColonSeg (buildTitleTimeKey ev) == "" || ev.start.isNone) with _ | _
  · rw [findByTitleTime_guard_false hg, findByTitleTime_guard_false hg]
    rw [List.filter_append, List.filter_append]
    have hnew : ([new].filter (fun item => buildTitleTimeKey item == buildTitleTimeKey ev))
        = [] := by
      simp [hne]
    rw [hnew]
    simp
  · simp only [findByTitleTime_guard_true hg]
    exact Nat.le_refl _

theorem goodIds_cal_sublist {st st2 : SyncSt} (h : GoodIds st)
    (hs : st2.cal.Sublist st.cal) (hn : st.nextId ≤ st2.nextId) : GoodIds st2 :=
  ⟨(hs.map (fun e => e.id)).nodup h.1,
    fun e he => lt_of_lt_of_le (h.2 e (hs.subset he)) hn⟩

theorem goodIds_patchAt {st : SyncSt} (h : GoodIds st) (i : Nat) (b : MirrorBody) :
    GoodIds (patchAt st i b) := by
  constructor
  · rw [patchAt_cal, ids_patchCal]
    exact h.1
  · intro e2 he2
    rw [patchAt_cal] at he2
    obtain ⟨e, he, hcase⟩ := mem_patchCal_elim he2
    rcases hcase with ⟨_, heq⟩ | ⟨_, heq⟩
    · rw [heq, applyPatch_id]
      exact h.2 e he
    · rw [heq]
      exact h.2 e he

theorem goodIds_doInsert {st : SyncSt} (h : GoodIds st) (b : MirrorBody) :
    GoodIds (doInsert st b) := by
  constructor
  · show ((st.cal ++ [insertFromBody st.nextId b]).map (fun e => e.id)).Nodup
    rw [List.map_append]
    apply List.Nodup.append h.1 (by simp)
    intro a ha hb
    obtain ⟨e, he, heq⟩ := List.mem_map.mp ha
    have hlt : e.id < st.nextId := h.2 e he
    have : a = st.nextId := by simpa using hb
    rw [this] at heq
    rw [heq] at hlt
    exact absurd rfl (Nat.ne_of_lt hlt)
  · intro e he
    rcases List.mem_append.mp he with h2 | h2
    · exact Nat.lt_succ_of_lt (h.2 e h2)
    · have : e = insertFromBody st.nextId b := by simpa using h2
      rw [this]
      exact Nat.lt_succ_self _

theorem doneFor_removeId {srcId : String} {ev2 : Event} {cal : List Event} {i : Nat}
    (h : DoneFor srcId ev2 cal)
    (hkeep : ∀ f ∈ cal, f.origin = some (buildOriginKey srcId ev2) →
      buildTitleTimeKey f = buildTitleTimeKey ev2 → ¬f.id = i) :
    DoneFor srcId ev2 (removeId i cal) := by
  by_cases hc2 : ev2.status = some "cancelled"
  · rw [DoneFor, if_pos hc2] at h ⊢
    intro e he
    exact h e (mem_removeId.mp he).1
  · rw [DoneFor, if_neg hc2] at h ⊢
    obtain ⟨⟨f, hf, hfo, hft⟩, hB⟩ := h
    exact ⟨⟨f, mem_removeId.mpr ⟨hf, hkeep f hf hfo hft⟩, hfo, hft⟩,
      fun e he ht => hB e (mem_removeId.mp he).1 ht⟩

theorem pendingFor_removeId {srcId : String} {ev2 : Event} {cal : List Event} {i : Nat}
    (h : PendingFor srcId ev2 cal) : PendingFor srcId ev2 (removeId i cal) :=
  ⟨le_trans (tagCount_sublist (removeId_sublist i cal) _) h.1,
    le_trans ((validDuplicates_sublist (removeId_sublist i cal)).length_le) h.2⟩

theorem doneFor_patchCal {srcId : String} {ev ev2 : Event} {cal : List Event} {i : Nat}
    {key : String} (hw : WellFormed ev)
    (hkb : ¬key = buildOriginKey srcId ev2)
    (htt : ¬buildTitleTimeKey ev = buildTitleTimeKey ev2)
    (htarget : ∀ t ∈ cal, t.id = i →
      ¬(t.origin = some (buildOriginKey srcId ev2) ∧
        buildTitleTimeKey t = buildTitleTimeKey ev2))
    (h : DoneFor srcId ev2 cal) :
    DoneFor srcId ev2 (patchCal cal i (mirrorBodyFrom ev key)) := by
  by_cases hc2 : ev2.status = some "cancelled"
  · rw [DoneFor, if_pos hc2] at h ⊢
    intro e2 he2
    obtain ⟨e, he, hcase⟩ := mem_patchCal_elim he2
    rcases hcase with ⟨_, heq⟩ | ⟨_, heq⟩
    · rw [heq, applyPatch_origin]
      intro hcontra
      injection hcontra with h2
      exact hkb h2
    · rw [heq]
      exact h e he
  · rw [DoneFor, if_neg hc2] at h ⊢
    obtain ⟨⟨f, hf, hfo, hft⟩, hB⟩ := h
    constructor
    · have hfid : ¬f.id = i := fun hEq => htarget f hf hEq ⟨hfo, hft⟩
      exact ⟨f, mem_patchCal_of_ne hf hfid, hfo, hft⟩
    · intro e2 he2 ht2e
      obtain ⟨e, he, hcase⟩ := mem_patchCal_elim he2
      rcases hcase with ⟨_, heq⟩ | ⟨_, heq⟩
      · exfalso
        rw [heq] at ht2e
        exact htt ((tt_applyPatch hw e key).symm.trans ht2e)
      · rw [heq]
        exact hB e he (by rw [← heq]; exact ht2e)

theorem pendingFor_patchCal {srcId : String} {ev ev2 : Event} {cal : List Event} {i : Nat}
    {key : String} (hw : WellFormed ev)
    (hkb : ¬key = buildOriginKey srcId ev2)
    (htt : ¬buildTitleTimeKey ev = buildTitleTimeKey ev2)
    (h : PendingFor srcId ev2 cal) :
    PendingFor srcId ev2 (patchCal cal i (mirrorBodyFrom ev key)) := by
  constructor
  · refine le_trans (tagCount_patchCal_le ?_) h.1
    show ¬(mirrorBodyFrom ev key).origin = buildOriginKey srcId ev2
    exact hkb
  · exact le_trans (validDuplicates_patchCal_le hw htt) h.2

theorem doneFor_append {srcId : String} {ev ev2 : Event} {cal : List Event} {n : Nat}
    {key : String} (hw : WellFormed ev)
    (hkb : ¬key = buildOriginKey srcId ev2)
    (htt : ¬buildTitleTimeKey ev = buildTitleTimeKey ev2)
    (h : DoneFor srcId ev2 cal) :
    DoneFor srcId ev2 (cal ++ [insertFromBody n (mirrorBodyFrom ev key)]) := by
  by_cases hc2 : ev2.status = some "cancelled"
  · rw [DoneFor, if_pos hc2] at h ⊢
    intro e2 he2
    rcases List.mem_append.mp he2 with h2 | h2
    · exact h e2 h2
    · have : e2 = insertFromBody n (mirrorBodyFrom ev key) := by simpa using h2
      rw [this, insertFromBody_origin]
      intro hcontra
      injection hcontra with h3
      exact hkb h3
  · rw [DoneFor, if_neg hc2] at h ⊢
    obtain ⟨⟨f, hf, hfo, hft⟩, hB⟩ := h
    refine ⟨⟨f, List.mem_append_left _ hf, hfo, hft⟩, ?_⟩
    intro e2 he2 ht2e
    rcases List.mem_append.mp he2 with h2 | h2
    · exact hB e2 h2 ht2e
    · exfalso
      have heq : e2 = insertFromBody n (mirrorBodyFrom ev key) := by simpa using h2
      rw [heq] at ht2e
      exact htt ((tt_insertFromBody hw n key).symm.trans ht2e)

theorem pendingFor_append {srcId : String} {ev ev2 : Event} {cal : List Event} {n : Nat}
    {key : String} (hw : WellFormed ev)
    (hkb : ¬key = buildOriginKey srcId ev2)
    (htt : ¬buildTitleTimeKey ev = buildTitleTimeKey ev2)
    (h : PendingFor srcId ev2 cal) :
    PendingFor srcId ev2 (cal ++ [insertFromBody n (mirrorBodyFrom ev key)]) := by
  constructor
  · rw [tagCount_append_one]
    have : ¬(insertFromBody n (mirrorBodyFrom ev key)).origin =
        some (buildOriginKey srcId ev2) := by
      rw [insertFromBody_origin]
      intro hcontra
      injection hcontra with h3
      exact hkb h3
    rw [if_neg this]
    simpa using h.1
  · refine le_trans (validDuplicates_append_le ?_) h.2
    rw [tt_insertFromBody hw n key]
    exact htt

/-- Helper: processing an event that is already settled in the target
performs no insert and no delete; it re-settles the event and preserves
the settled status of any separated event. -/
theorem step_done (env : Env) (srcId : String) (st : SyncSt) (ev : Event)
    (hff : FailureFree env) (hgi : GoodIds st) (hok : ItemOk ev)
    (hdone : DoneFor srcId ev st.cal) :
    ∃ st2, processEvent env srcId st ev = .ok st2 ∧
      st2.inserts = st.inserts ∧ st2.deletes = st.deletes ∧
      st2.nextId = st.nextId ∧ GoodIds st2 ∧
      DoneFor srcId ev st2.cal ∧
      (∀ ev2 : Event, ¬buildOriginKey srcId ev2 = buildOriginKey srcId ev →
        ¬buildTitleTimeKey ev2 = buildTitleTimeKey ev →
        DoneFor srcId ev2 st.cal → DoneFor srcId ev2 st2.cal) := by
  obtain ⟨hif, hdf, hpf⟩ := hff
  by_cases hc : ev.status = some "cancelled"
  · have hdc : ∀ e ∈ st.cal, ¬e.origin = some (buildOriginKey srcId ev) := by
      have h0 := hdone
      rw [DoneFor, if_pos hc] at h0
      exact h0
    have hfo : findByOrigin st.cal (buildOriginKey srcId ev) = none :=
      findByOrigin_eq_none.mpr hdc
    have hct : (ev.status == some "cancelled") = true := by simp [hc]
    refine ⟨st, by simp [processEvent, hct, hfo], rfl, rfl, rfl, hgi, hdone, ?_⟩
    intro ev2 _ _ h
    exact h
  · have hw : WellFormed ev := by
      rcases hok with h | h
      · exact absurd h hc
      · exact h
    have hdl := hdone
    rw [DoneFor, if_neg hc] at hdl
    obtain ⟨⟨eW, heW, hoW, htW⟩, hB⟩ := hdl
    have hvd : validDuplicates st.cal ev (buildOriginKey srcId ev) = [] :=
      valid_nil_of_matchers_tagged hB
    have hscan : reconcileDuplicates env st ev (buildOriginKey srcId ev) = (none, st) := by
      unfold reconcileDuplicates
      rw [hvd]
      rfl
    obtain ⟨m, hfo⟩ := findByOrigin_isSome heW hoW
    obtain ⟨hmC, hmO⟩ := findByOrigin_mem hfo
    have hct : (ev.status == some "cancelled") = false := by simp [hc]
    refine ⟨patchAt st m.id (mirrorBodyFrom ev (buildOriginKey srcId ev)), ?_, rfl, rfl, rfl,
      goodIds_patchAt hgi _ _, ?_, ?_⟩
    · simp only [processEvent, hct, Bool.false_eq_true, if_false, hscan, hfo, hpf]
    · rw [DoneFor, if_neg hc]
      constructor
      · refine ⟨applyPatch m (mirrorBodyFrom ev (buildOriginKey srcId ev)), ?_, rfl, ?_⟩
        · rw [patchAt_cal]
          exact mem_patchCal_target hmC rfl
        · exact tt_applyPatch hw m _
      · intro e2 he2 ht2
        rw [patchAt_cal] at he2
        obtain ⟨e, he, hcase⟩ := mem_patchCal_elim he2
        rcases hcase with ⟨_, heq⟩ | ⟨_, heq⟩
        · rw [heq]
          rfl
        · rw [heq]
          refine hB e he ?_
          rw [← heq]
          exact ht2
    · intro ev2 hk2 ht2 hd2
      rw [patchAt_cal]
      apply doneFor_patchCal hw (fun h => hk2 h.symm) (fun h => ht2 h.symm) ?_ hd2
      intro t ht hidm hcontra
      have htm : t = m := List.inj_on_of_nodup_map hgi.1 ht hmC hidm
      rw [htm, hmO] at hcontra
      have h3 : buildOriginKey srcId ev = buildOriginKey srcId ev2 :=
        Option.some.inj hcontra.1
      exact hk2 h3.symm

theorem doneFor_self_append {srcId : String} {ev : Event} {cal : List Event} {n : Nat}
    (hw : WellFormed ev) (hc : ¬ev.status = some "cancelled")
    (hB : ∀ e ∈ cal, buildTitleTimeKey e = buildTitleTimeKey ev →
      e.origin = some (buildOriginKey srcId ev)) :
    DoneFor srcId ev
      (cal ++ [insertFromBody n (mirrorBodyFrom ev (buildOriginKey srcId ev))]) := by
  rw [DoneFor, if_neg hc]
  constructor
  · exact ⟨insertFromBody n (mirrorBodyFrom ev (buildOriginKey srcId ev)),
      List.mem_append_right _ (by simp), rfl, tt_insertFromBody hw n _⟩
  · intro e2 he2 ht
    rcases List.mem_append.mp he2 with h2 | h2
    · exact hB e2 h2 ht
    · have : e2 = insertFromBody n (mirrorBodyFrom ev (buildOriginKey srcId ev)) := by
        simpa using h2
      rw [this]
      rfl

theorem doneFor_self_patch {srcId : String} {ev m : Event} {cal : List Event}
    (hw : WellFormed ev) (hc : ¬ev.status = some "cancelled") (hmC : m ∈ cal)
    (hB : ∀ e ∈ cal, ¬e.id = m.id → buildTitleTimeKey e = buildTitleTimeKey ev →
      e.origin = some (buildOriginKey srcId ev)) :
    DoneFor srcId ev
      (patchCal cal m.id (mirrorBodyFrom ev (buildOriginKey srcId ev))) := by
  rw [DoneFor, if_neg hc]
  constructor
  · exact ⟨applyPatch m (mirrorBodyFrom ev (buildOriginKey srcId ev)),
      mem_patchCal_target hmC rfl, rfl, tt_applyPatch hw m _⟩
  · intro e2 he2 ht
    obtain ⟨e, he, hcase⟩ := mem_patchCal_elim he2
    rcases hcase with ⟨_, heq⟩ | ⟨hidm, heq⟩
    · rw [heq]
      rfl
    · rw [heq]
      refine hB e he hidm ?_
      rw [← heq]
      exact ht

set_option maxHeartbeats 2000000 in
/-- Helper: processing an event from a state with at most one tagged
mirror and at most one valid duplicate succeeds, settles the event, and
preserves both the settled status and the precondition of any separated
event. -/
theorem step_establish (env : Env) (srcId : String) (st : SyncSt) (ev : Event)
    (hff : FailureFree env) (hgi : GoodIds st) (hok : ItemOk ev)
    (hpend : PendingFor srcId ev st.cal) :
    ∃ st2, processEvent env srcId st ev = .ok st2 ∧
      GoodIds st2 ∧ DoneFor srcId ev st2.cal ∧
      (∀ ev2 : Event, ¬buildOriginKey srcId ev2 = buildOriginKey srcId ev →
        ¬buildTitleTimeKey ev2 = buildTitleTimeKey ev →
        (PendingFor srcId ev2 st.cal → PendingFor srcId ev2 st2.cal) ∧
        (DoneFor srcId ev2 st.cal → DoneFor srcId ev2 st2.cal)) := by
  obtain ⟨hif, hdf, hpf⟩ := hff
  by_cases hc : ev.status = some "cancelled"
  · have hct : (ev.status == some "cancelled") = true := by simp [hc]
    rcases hfo : findByOrigin st.cal (buildOriginKey srcId ev) with _ | m
    · refine ⟨st, by simp [processEvent, hct, hfo], hgi, ?_, ?_⟩
      · rw [DoneFor, if_pos hc]
        exact findByOrigin_eq_none.mp hfo
      · intro ev2 _ _
        exact ⟨id, id⟩
    · obtain ⟨hmC, hmO⟩ := findByOrigin_mem hfo
      have huniq : ∀ e ∈ st.cal, e.origin = some (buildOriginKey srcId ev) → e = m := by
        intro e he ho
        by_contra hne
        have hme : e ∈ st.cal.filter
            (fun x => x.origin == some (buildOriginKey srcId ev)) :=
          List.mem_filter.mpr ⟨he, by simp [ho]⟩
        have hmm : m ∈ st.cal.filter
            (fun x => x.origin == some (buildOriginKey srcId ev)) :=
          List.mem_filter.mpr ⟨hmC, by simp [hmO]⟩
        have h2 := two_mem_le_length hme hmm hne
        have h3 := hpend.1
        unfold tagCount at h3
        omega
      refine ⟨{ st with cal := removeId m.id st.cal, deletes := st.deletes + 1 },
        by simp [processEvent, hct, hfo, hdf], ?_, ?_, ?_⟩
      · exact goodIds_cal_sublist hgi (removeId_sublist m.id st.cal) (Nat.le_refl _)
      · rw [DoneFor, if_pos hc]
        intro e he ho
        obtain ⟨heC, hene⟩ := mem_removeId.mp he
        exact hene (by rw [huniq e heC ho])
      · intro ev2 hk2 _
        refine ⟨fun hp => pendingFor_removeId hp, fun hd => doneFor_removeId hd ?_⟩
        intro f hf hfo2 _ hfid
        have hfm : f = m := List.inj_on_of_nodup_map hgi.1 hf hmC hfid
        rw [hfm, hmO] at hfo2
        exact hk2 (Option.some.inj hfo2).symm
  · have hw : WellFormed ev := by
      rcases hok with h | h
      · exact absurd h hc
      · exact h
    have hct : (ev.status == some "cancelled") = false := by simp [hc]
    rcases hvv : validDuplicates st.cal ev (buildOriginKey srcId ev) with _ | ⟨D, rest⟩
    · have hB0 := matchers_tagged_of_valid_nil hw hvv
      have hscan : reconcileDuplicates env st ev (buildOriginKey srcId ev) = (none, st) := by
        unfold reconcileDuplicates
        rw [hvv]
        rfl
      rcases hfo : findByOrigin st.cal (buildOriginKey srcId ev) with _ | m
      · refine ⟨doInsert st (mirrorBodyFrom ev (buildOriginKey srcId ev)), ?_,
          goodIds_doInsert hgi _, ?_, ?_⟩
        · simp only [processEvent, hct, Bool.false_eq_true, if_false, hscan, hfo, hif]
        · exact doneFor_self_append hw hc hB0
        · intro ev2 hk2 ht2
          exact ⟨fun hp => pendingFor_append hw (fun h => hk2 h.symm)
              (fun h => ht2 h.symm) hp,
            fun hd => doneFor_append hw (fun h => hk2 h.symm) (fun h => ht2 h.symm) hd⟩
      · obtain ⟨hmC, hmO⟩ := findByOrigin_mem hfo
        refine ⟨patchAt st m.id (mirrorBodyFrom ev (buildOriginKey srcId ev)), ?_,
          goodIds_patchAt hgi _ _, ?_, ?_⟩
        · simp only [processEvent, hct, Bool.false_eq_true, if_false, hscan, hfo, hpf]
        · rw [patchAt_cal]
          exact doneFor_self_patch hw hc hmC (fun e he _ ht => hB0 e he ht)
        · intro ev2 hk2 ht2
          have htarget : ∀ t ∈ st.cal, t.id = m.id →
              ¬(t.origin = some (buildOriginKey srcId ev2) ∧
                buildTitleTimeKey t = buildTitleTimeKey ev2) := by
            intro t ht hidm hcontra
            have htm : t = m := List.inj_on_of_nodup_map hgi.1 ht hmC hidm
            rw [htm, hmO] at hcontra
            exact hk2 (Option.some.inj hcontra.1).symm
          rw [patchAt_cal]
          exact ⟨fun hp => pendingFor_patchCal hw (fun h => hk2 h.symm)
              (fun h => ht2 h.symm) hp,
            fun hd => doneFor_patchCal hw (fun h => hk2 h.symm) (fun h => ht2 h.symm)
              htarget hd⟩
    · have hr : rest = [] := by
        have h2 := hpend.2
        rw [hvv] at h2
        simp only [List.length_cons] at h2
        have h3 : rest.length = 0 := by omega
        exact List.length_eq_zero.mp h3
      subst hr
      have hDmem : D ∈ validDuplicates st.cal ev (buildOriginKey srcId ev) := by
        rw [hvv]
        exact List.mem_cons_self _ _
      obtain ⟨hDc, hDt, hDo⟩ := mem_validDuplicates hDmem
      by_cases hnew : isEventNewer D (currentEventFrom ev (buildOriginKey srcId ev)) = true
      · have hscan : reconcileDuplicates env st ev (buildOriginKey srcId ev) =
            (some D, st) := by
          unfold reconcileDuplicates
          rw [hvv]
          simp only [dupLoop, Option.getD, hnew, if_true]
        refine ⟨patchAt st D.id (mirrorBodyFrom ev (buildOriginKey srcId ev)), ?_,
          goodIds_patchAt hgi _ _, ?_, ?_⟩
        · simp only [processEvent, hct, Bool.false_eq_true, if_false, hscan, hpf]
        · rw [patchAt_cal]
          apply doneFor_self_patch hw hc hDc
          intro e he hidD ht
          by_cases ho : e.origin = some (buildOriginKey srcId ev)
          · exact ho
          · exfalso
            have hin := mem_validDuplicates_intro hw he ht ho
            rw [hvv] at hin
            have : e = D := by simpa using hin
            exact hidD (by rw [this])
        · intro ev2 hk2 ht2
          have htarget : ∀ t ∈ st.cal, t.id = D.id →
              ¬(t.origin = some (buildOriginKey srcId ev2) ∧
                buildTitleTimeKey t = buildTitleTimeKey ev2) := by
            intro t ht hidm hcontra
            have htm : t = D := List.inj_on_of_nodup_map hgi.1 ht hDc hidm
            rw [htm, hDt] at hcontra
            exact ht2 hcontra.2.symm
          rw [patchAt_cal]
          exact ⟨fun hp => pendingFor_patchCal hw (fun h => hk2 h.symm)
              (fun h => ht2 h.symm) hp,
            fun hd => doneFor_patchCal hw (fun h => hk2 h.symm) (fun h => ht2 h.symm)
              htarget hd⟩
      · have hnew2 : isEventNewer D (currentEventFrom ev (buildOriginKey srcId ev)) =
            false := by
          rcases h : isEventNewer D (currentEventFrom ev (buildOriginKey srcId ev)) with _ | _
          · rfl
          · exact absurd h hnew
        have hscan : reconcileDuplicates env st ev (buildOriginKey srcId ev) =
            (none, { st with cal := removeId D.id st.cal, deletes := st.deletes + 1 }) := by
          unfold reconcileDuplicates
          rw [hvv]
          simp only [dupLoop, Option.getD, hnew2, Bool.false_eq_true, if_false, hdf]
        have hgi1 : GoodIds { st with cal := removeId D.id st.cal, deletes := st.deletes + 1 } :=
          goodIds_cal_sublist hgi (removeId_sublist D.id st.cal) (Nat.le_refl _)
        have hB1 : ∀ e ∈ removeId D.id st.cal,
            buildTitleTimeKey e = buildTitleTimeKey ev →
            e.origin = some (buildOriginKey srcId ev) := by
          intro e he ht
          by_cases ho : e.origin = some (buildOriginKey srcId ev)
          · exact ho
          · exfalso
            have hin := mem_validDuplicates_intro hw (mem_removeId.mp he).1 ht ho
            rw [hvv] at hin
            have : e = D := by simpa using hin
            exact (mem_removeId.mp he).2 (by rw [this])
        have hkeepD : ∀ (ev2 : Event), ¬buildTitleTimeKey ev2 = buildTitleTimeKey ev →
            ∀ f ∈ st.cal, f.origin = some (buildOriginKey srcId ev2) →
            buildTitleTimeKey f = buildTitleTimeKey ev2 → ¬f.id = D.id := by
          intro ev2 ht2 f hf _ hft hfid
          have hfD : f = D := List.inj_on_of_nodup_map hgi.1 hf hDc hfid
          rw [hfD, hDt] at hft
          exact ht2 hft.symm
        rcases hfo : findByOrigin (removeId D.id st.cal) (buildOriginKey srcId ev)
          with _ | m
        · refine ⟨doInsert { st with cal := removeId D.id st.cal, deletes := st.deletes + 1 } (mirrorBodyFrom ev (buildOriginKey srcId ev)),
            ?_, goodIds_doInsert hgi1 _, ?_, ?_⟩
          · simp only [processEvent, hct, Bool.false_eq_true, if_false, hscan, hfo, hif]
          · exact doneFor_self_append hw hc hB1
          · intro ev2 hk2 ht2
            refine ⟨fun hp => pendingFor_append hw (fun h => hk2 h.symm)
                (fun h => ht2 h.symm) (pendingFor_removeId hp),
              fun hd => doneFor_append hw (fun h => hk2 h.symm) (fun h => ht2 h.symm)
                (doneFor_removeId hd (hkeepD ev2 ht2))⟩
        · obtain ⟨hmC, hmO⟩ := findByOrigin_mem hfo
          refine ⟨patchAt { st with cal := removeId D.id st.cal, deletes := st.deletes + 1 } m.id (mirrorBodyFrom ev (buildOriginKey srcId ev)),
            ?_, goodIds_patchAt hgi1 _ _, ?_, ?_⟩
          · simp only [processEvent, hct, Bool.false_eq_true, if_false, hscan, hfo, hpf]
          · rw [patchAt_cal]
            exact doneFor_self_patch hw hc hmC (fun e he _ ht => hB1 e he ht)
          · intro ev2 hk2 ht2
            have htarget : ∀ t ∈ removeId D.id st.cal, t.id = m.id →
                ¬(t.origin = some (buildOriginKey srcId ev2) ∧
                  buildTitleTimeKey t = buildTitleTimeKey ev2) := by
              intro t ht hidm hcontra
              have htm : t = m := List.inj_on_of_nodup_map hgi1.1 ht hmC hidm
              rw [htm, hmO] at hcontra
              exact hk2 (Option.some.inj hcontra.1).symm
            rw [patchAt_cal]
            exact ⟨fun hp => pendingFor_patchCal hw (fun h => hk2 h.symm)
                (fun h => ht2 h.symm) (pendingFor_removeId hp),
              fun hd => doneFor_patchCal hw (fun h => hk2 h.symm) (fun h => ht2 h.symm)
                htarget (doneFor_removeId hd (hkeepD ev2 ht2))⟩

/-- Helper: a first pass over a page of pairwise-separated items, each
with at most one tagged mirror and at most one valid duplicate, succeeds
and settles every item (and keeps previously settled separated events
settled). -/
theorem run_establish (env : Env) (srcId : String) (hff : FailureFree env) :
    ∀ (items : List Event) (st : SyncSt) (ds : List Event),
      GoodIds st →
      (∀ a ∈ items, ItemOk a ∧ PendingFor srcId a st.cal) →
      items.Pairwise (SepKeys srcId) →
      (∀ d ∈ ds, DoneFor srcId d st.cal ∧ ∀ a ∈ items, SepKeys srcId d a) →
      ∃ st2, processItems env srcId st items = .ok st2 ∧ GoodIds st2 ∧
        (∀ a ∈ items, DoneFor srcId a st2.cal) ∧
        (∀ d ∈ ds, DoneFor srcId d st2.cal) := by
  intro items
  induction items with
  | nil =>
    intro st ds hgi _ _ hds
    exact ⟨st, rfl, hgi, fun a ha => absurd ha (List.not_mem_nil a),
      fun d hd => (hds d hd).1⟩
  | cons a rest ih =>
    intro st ds hgi hitems hpair hds
    obtain ⟨hoka, hpa⟩ := hitems a (List.mem_cons_self _ _)
    obtain ⟨st1, hrun, hgi1, hdone1, hpres⟩ := step_establish env srcId st a hff hgi hoka hpa
    have hpairrest : rest.Pairwise (SepKeys srcId) := (List.pairwise_cons.mp hpair).2
    have hsep_a : ∀ r ∈ rest, SepKeys srcId a r := (List.pairwise_cons.mp hpair).1
    have hitems1 : ∀ r ∈ rest, ItemOk r ∧ PendingFor srcId r st1.cal := by
      intro r hr
      obtain ⟨hokr, hpr⟩ := hitems r (List.mem_cons_of_mem _ hr)
      have hsep := hsep_a r hr
      exact ⟨hokr, (hpres r (fun h => hsep.1 h.symm) (fun h => hsep.2 h.symm)).1 hpr⟩
    have hds1 : ∀ d ∈ (a :: ds), DoneFor srcId d st1.cal ∧
        ∀ r ∈ rest, SepKeys srcId d r := by
      intro d hd
      rcases List.mem_cons.mp hd with hda | hdd
      · exact ⟨by rw [hda]; exact hdone1, by rw [hda]; exact hsep_a⟩
      · obtain ⟨hdone_d, hsep_d⟩ := hds d hdd
        have hsep_da := hsep_d a (List.mem_cons_self _ _)
        exact ⟨(hpres d hsep_da.1 hsep_da.2).2 hdone_d,
          fun r hr => hsep_d r (List.mem_cons_of_mem _ hr)⟩
    obtain ⟨st2, hrun2, hgi2, hdoneAll, hdsAll⟩ := ih st1 (a :: ds) hgi1 hitems1
      hpairrest hds1
    refine ⟨st2, ?_, hgi2, ?_, ?_⟩
    · have hstep : processItems env srcId st (a :: rest) = processItems env srcId st1 rest := by
        simp only [processItems, hrun]
      rw [hstep]
      exact hrun2
    · intro x hx
      rcases List.mem_cons.mp hx with h | h
      · rw [h]
        exact hdsAll a (List.mem_cons_self _ _)
      · exact hdoneAll x h
    · intro d hd
      exact hdsAll d (List.mem_cons_of_mem _ hd)

/-- Helper: a pass over a page of pairwise-separated items that are all
already settled performs zero inserts and zero deletes. -/
theorem run_done (env : Env) (srcId : String) (hff : FailureFree env) :
    ∀ (items : List Event) (st : SyncSt),
      GoodIds st →
      (∀ a ∈ items, ItemOk a ∧ DoneFor srcId a st.cal) →
      items.Pairwise (SepKeys srcId) →
      ∃ st2, processItems env srcId st items = .ok st2 ∧
        st2.inserts = st.inserts ∧ st2.deletes = st.deletes ∧ GoodIds st2 := by
  intro items
  induction items with
  | nil =>
    intro st hgi _ _
    exact ⟨st, rfl, rfl, rfl, hgi⟩
  | cons a rest ih =>
    intro st hgi hitems hpair
    obtain ⟨hoka, hda⟩ := hitems a (List.mem_cons_self _ _)
    obtain ⟨st1, hrun, hins1, hdel1, _, hgi1, _, hpres⟩ :=
      step_done env srcId st a hff hgi hoka hda
    have hsep_a : ∀ r ∈ rest, SepKeys srcId a r := (List.pairwise_cons.mp hpair).1
    have hitems1 : ∀ r ∈ rest, ItemOk r ∧ DoneFor srcId r st1.cal := by
      intro r hr
      obtain ⟨hokr, hdr⟩ := hitems r (List.mem_cons_of_mem _ hr)
      have hsep := hsep_a r hr
      exact ⟨hokr, hpres r (fun h => hsep.1 h.symm) (fun h => hsep.2 h.symm) hdr⟩
    obtain ⟨st2, hrun2, hins2, hdel2, hgi2⟩ := ih st1 hgi1 hitems1
      (List.pairwise_cons.mp hpair).2
    refine ⟨st2, ?_, ?_, ?_, hgi2⟩
    · have hstep : processItems env srcId st (a :: rest) = processItems env srcId st1 rest := by
        simp only [processItems, hrun]
      rw [hstep]
      exact hrun2
    · rw [hins2, hins1]
    · rw [hdel2, hdel1]

/-- C2 as amended: when the non-cancelled items of the page carry title,
start and end, the items are pairwise distinct in identity key and in
title+time key, the target holds at most one tagged mirror and at most
one valid title+time duplicate per item, ids are distinct, and no write
failure is injected, then running the page twice performs zero inserts
and zero deletes on the second run.  Without these conditions the claim
fails (see the counterexample: a second run can still delete a leftover
duplicate). -/
theorem c2_amended (env : Env) (srcId : String) (st : SyncSt) (items : List Event)
    (hff : FailureFree env) (hgi : GoodIds st)
    (hpair : items.Pairwise (SepKeys srcId))
    (hitems : ∀ a ∈ items, ItemOk a ∧ PendingFor srcId a st.cal) :
    ∃ st1 st2, processItems env srcId st items = .ok st1 ∧
      processItems env srcId st1 items = .ok st2 ∧
      st2.inserts = st1.inserts ∧ st2.deletes = st1.deletes := by
  obtain ⟨st1, h1, hgi1, hdone1, _⟩ := run_establish env srcId hff items st [] hgi hitems
    hpair (fun d hd => absurd hd (List.not_mem_nil d))
  obtain ⟨st2, h2, hins, hdel, _⟩ := run_done env srcId hff items st1 hgi1
    (fun a ha => ⟨(hitems a ha).1, hdone1 a ha⟩) hpair
  exact ⟨st1, st2, h1, h2, hins, hdel⟩

instance (s : String) (a b : Event) : Decidable (SepKeys s a b) :=
  decidable_of_iff (¬buildOriginKey s a = buildOriginKey s b ∧
    ¬buildTitleTimeKey a = buildTitleTimeKey b) Iff.rfl

instance (ev : Event) : Decidable (WellFormed ev) :=
  decidable_of_iff (ev.summary.isSome = true ∧
    ¬firstColonSeg (buildTitleTimeKey ev) = "" ∧
    ev.start.isSome = true ∧ ev.finish.isSome = true) Iff.rfl

instance (ev : Event) : Decidable (ItemOk ev) :=
  decidable_of_iff (ev.status = some "cancelled" ∨ WellFormed ev) Iff.rfl

instance (srcId : String) (ev : Event) (cal : List Event) :
    Decidable (PendingFor srcId ev cal) :=
  decidable_of_iff (tagCount (buildOriginKey srcId ev) cal ≤ 1 ∧
    (validDuplicates cal ev (buildOriginKey srcId ev)).length ≤ 1) Iff.rfl

instance (st : SyncSt) : Decidable (GoodIds st) :=
  decidable_of_iff ((st.cal.map (fun e => e.id)).Nodup ∧
    ∀ e ∈ st.cal, e.id < st.nextId) (by unfold GoodIds; exact Iff.rfl)

instance (srcId : String) (ev : Event) (cal : List Event) :
    Decidable (DoneFor srcId ev cal) :=
  if h : ev.status = some "cancelled" then
    decidable_of_iff (∀ e ∈ cal, ¬e.origin = some (buildOriginKey srcId ev))
      (by rw [DoneFor, if_pos h])
  else
    decidable_of_iff ((∃ e ∈ cal, e.origin = some (buildOriginKey srcId ev) ∧
        buildTitleTimeKey e = buildTitleTimeKey ev) ∧
      (∀ e ∈ cal, buildTitleTimeKey e = buildTitleTimeKey ev →
        e.origin = some (buildOriginKey srcId ev)))
      (by rw [DoneFor, if_neg h])

def c2DA : Event :=
  { blankEvent 11 with
      summary := some "Standup"
      start := some ⟨some "2026-01-11T10:00:00Z", none⟩
      finish := some ⟨some "2026-01-11T10:30:00Z", none⟩
      updated := some 10 }

def c2DB : Event :=
  { blankEvent 12 with
      summary := some "Standup"
      start := some ⟨some "2026-01-11T10:00:00Z", none⟩
      finish := some ⟨some "2026-01-11T10:30:00Z", none⟩
      updated := some 30 }

def c2DC : Event :=
  { blankEvent 13 with
      summary := some "Standup"
      start := some ⟨some "2026-01-11T10:00:00Z", none⟩
      finish := some ⟨some "2026-01-11T10:30:00Z", none⟩
      updated := some 20 }

def c2ev : Event :=
  { blankEvent 0 with
      summary := some "Standup"
      start := some ⟨some "2026-01-11T10:00:00Z", none⟩
      finish := some ⟨some "2026-01-11T10:30:00Z", none⟩
      iCalUID := some "u1" }

def c2st : SyncSt := ⟨[c2DA, c2DB, c2DC], 100, 0, 0, 0⟩

/-- Counterexample to C2: over a page with one unchanged event, the
second run is not free of deletes.  Three untagged title+time
duplicates exist; the first run adopts the first one and leaves the
other two untouched, and the second run then deletes one of the
leftovers (one delete, where the claim requires zero). -/
theorem c2_counterexample :
    (processItems envNoFail "src" c2st [c2ev]).toOption.map (fun st1 =>
      (processItems envNoFail "src" st1 [c2ev]).toOption.map (fun st2 =>
        (st2.inserts - st1.inserts, st2.deletes - st1.deletes))) =
      some (some (0, 1)) := by
  decide

def c2w1 : Event :=
  { blankEvent 0 with
      summary := some "Alpha"
      start := some ⟨some "2026-01-12T10:00:00Z", none⟩
      finish := some ⟨some "2026-01-12T10:30:00Z", none⟩
      iCalUID := some "u1"
      updated := some 50 }

def c2w2 : Event :=
  { blankEvent 0 with
      summary := some "Beta"
      start := some ⟨some "2026-01-12T11:00:00Z", none⟩
      finish := some ⟨some "2026-01-12T11:30:00Z", none⟩
      iCalUID := some "u2"
      updated := some 60 }

def c2wst : SyncSt := ⟨[], 100, 0, 0, 0⟩

/-- Witness for the amended C2 on a concrete two-event page over an
empty target. -/
theorem c2_witness :
    ∃ st1 st2, processItems envNoFail "src" c2wst [c2w1, c2w2] = .ok st1 ∧
      processItems envNoFail "src" st1 [c2w1, c2w2] = .ok st2 ∧
      st2.inserts = st1.inserts ∧ st2.deletes = st1.deletes :=
  c2_amended envNoFail "src" c2wst [c2w1, c2w2] envNoFail_ff (by decide) (by decide)
    (by decide)

theorem setToken_same (tokens : String → Option String) (srcId : String)
    (v : Option String) : setToken tokens srcId v srcId = v := by
  simp [setToken]

theorem setToken_other {s2 srcId : String} (tokens : String → Option String)
    (v : Option String) (h : ¬s2 = srcId) : setToken tokens srcId v s2 = tokens s2 := by
  simp [setToken, h]

/-- C8 as amended: when the stored cursor is reported expired (a 410),
the source's cursor is cleared from the durable state, the fetch is
transparently retried in window mode within the same run, the tokens of
every other source are untouched, and the restarted pass performs no
insert and no delete for a page whose items are all settled
(already-mirrored, with no untagged title+time duplicates); without that
last condition the restarted pass can tag a second mirror (see the
counterexample). -/
theorem c8_amended (env : Env) (src : SourceFetch) (srcId : String) (fuel : Nat)
    (rs : RunSt) (t : String) (items : List Event) (nst : Option String)
    (htok : rs.tokens srcId = some t)
    (hstale : src (some t) none = .error 410)
    (hwin : src none none = .ok ⟨items, none, nst⟩)
    (hff : FailureFree env) (hgi : GoodIds rs.sync)
    (hpair : items.Pairwise (SepKeys srcId))
    (hitems : ∀ a ∈ items, ItemOk a ∧ DoneFor srcId a rs.sync.cal) :
    ∃ rs2, syncOneSource env src srcId (fuel + 2) rs = .ok rs2 ∧
      rs2.tokens srcId = nst ∧
      (∀ s2, ¬s2 = srcId → rs2.tokens s2 = rs.tokens s2) ∧
      rs2.sync.inserts = rs.sync.inserts ∧ rs2.sync.deletes = rs.sync.deletes := by
  obtain ⟨st2, hrun, hins, hdel, _⟩ := run_done env srcId hff items rs.sync hgi hitems hpair
  have h1 : syncLoop env src srcId (fuel + 2) (some t) none rs =
      syncLoop env src srcId (fuel + 1) none none
        { rs with tokens := setToken rs.tokens srcId none } := by
    show syncLoop env src srcId (fuel + 1 + 1) (some t) none rs = _
    simp only [syncLoop, hstale]
    rfl
  cases nst with
  | none =>
    have h2 : syncLoop env src srcId (fuel + 1) none none
        { rs with tokens := setToken rs.tokens srcId none } =
          .ok ⟨setToken rs.tokens srcId none, st2⟩ := by
      simp only [syncLoop, hwin, hrun]
    refine ⟨⟨setToken rs.tokens srcId none, st2⟩, ?_, setToken_same _ _ _,
      fun s2 hs2 => setToken_other _ _ hs2, hins, hdel⟩
    show syncOneSource env src srcId (fuel + 2) rs = _
    unfold syncOneSource
    rw [htok, h1, h2]
  | some t2 =>
    have h2 : syncLoop env src srcId (fuel + 1) none none
        { rs with tokens := setToken rs.tokens srcId none } =
          .ok ⟨setToken (setToken rs.tokens srcId none) srcId (some t2), st2⟩ := by
      simp only [syncLoop, hwin, hrun]
    refine ⟨⟨setToken (setToken rs.tokens srcId none) srcId (some t2), st2⟩, ?_,
      setToken_same _ _ _, ?_, hins, hdel⟩
    · show syncOneSource env src srcId (fuel + 2) rs = _
      unfold syncOneSource
      rw [htok, h1, h2]
    · intro s2 hs2
      show setToken (setToken rs.tokens srcId none) srcId (some t2) s2 = rs.tokens s2
      rw [setToken_other _ _ hs2, setToken_other _ _ hs2]

def c8M : Event :=
  { blankEvent 1 with
      summary := some "Standup"
      start := some ⟨some "2026-01-13T10:00:00Z", none⟩
      finish := some ⟨some "2026-01-13T10:30:00Z", none⟩
      created := some 10
      updated := some 5
      origin := some "cal1:u1" }

def c8D : Event :=
  { blankEvent 2 with
      summary := some "Standup"
      start := some ⟨some "2026-01-13T10:00:00Z", none⟩
      finish := some ⟨some "2026-01-13T10:30:00Z", none⟩
      updated := some 100 }

def c8ev : Event :=
  { blankEvent 0 with
      summary := some "Standup"
      start := some ⟨some "2026-01-13T10:00:00Z", none⟩
      finish := some ⟨some "2026-01-13T10:30:00Z", none⟩
      iCalUID := some "u1"
      updated := some 50 }

def c8rs : RunSt :=
  ⟨fun s => if s == "cal1" then some "tok" else none, ⟨[c8M, c8D], 100, 0, 0, 0⟩⟩

def c8src : SourceFetch := fun tok _ =>
  match tok with
  | some _ => .error 410
  | none => .ok ⟨[c8ev], none, none⟩

/-- Counterexample to C8: the stale cursor is indeed cleared and the
fetch restarts with the window, but the restarted pass does create a
duplicate mirror for an event already mirrored before the restart: a
newer untagged title+time duplicate is adopted and tagged, leaving two
non-deleted mirrors with the identity key. -/
theorem c8_counterexample :
    c8rs.tokens "cal1" = some "tok" ∧
    tagCount "cal1:u1" c8rs.sync.cal = 1 ∧
    (syncOneSource envNoFail c8src "cal1" 5 c8rs).toOption.map
        (fun rs2 => (tagCount "cal1:u1" rs2.sync.cal, rs2.sync.inserts,
          rs2.tokens "cal1")) =
      some (2, 0, none) := by
  decide

def c8wM : Event :=
  { blankEvent 1 with
      summary := some "Gamma"
      start := some ⟨some "2026-01-14T10:00:00Z", none⟩
      finish := some ⟨some "2026-01-14T10:30:00Z", none⟩
      created := some 5
      origin := some "s1:u1" }

def c8wev : Event :=
  { blankEvent 0 with
      summary := some "Gamma"
      start := some ⟨some "2026-01-14T10:00:00Z", none⟩
      finish := some ⟨some "2026-01-14T10:30:00Z", none⟩
      iCalUID := some "u1"
      updated := some 50 }

def c8wrs : RunSt :=
  ⟨fun s => if s == "s1" then some "tk" else none, ⟨[c8wM], 100, 0, 0, 0⟩⟩

def c8wsrc : SourceFetch := fun tok _ =>
  match tok with
  | some _ => .error 410
  | none => .ok ⟨[c8wev], none, some "tk2"⟩

/-- Witness for the amended C8 on a concrete stale-cursor run whose
single window item is already mirrored. -/
theorem c8_witness :
    ∃ rs2, syncOneSource envNoFail c8wsrc "s1" (3 + 2) c8wrs = .ok rs2 ∧
      rs2.tokens "s1" = some "tk2" ∧
      (∀ s2, ¬s2 = "s1" → rs2.tokens s2 = c8wrs.tokens s2) ∧
      rs2.sync.inserts = c8wrs.sync.inserts ∧
      rs2.sync.deletes = c8wrs.sync.deletes :=
  c8_amended envNoFail c8wsrc "s1" 3 c8wrs "tk" [c8wev] (some "tk2") rfl rfl rfl
    envNoFail_ff (by decide) (by decide) (by decide)
